import Mathlib

/-!
Verification development for the derivation builder
(`src/libstore/unix/build/derivation-builder.cc`).

The C++ source is shallowly embedded: each function slice relevant to a
verified property is translated into an executable Lean definition over
explicit state.  External collaborators (the store, the filesystem,
hashing) appear as explicit oracle fields of environment records; parts
of the repository that are not in the provided source tree (e.g.
`topoSort` from libutil, `scanForReferences`) are modelled from the
specification text and marked as such in their doc comments.
-/

namespace NixBuild

/-- A store path, reduced to the two components the builder manipulates:
the hash part (fixed-length prefix of the basename) and the name. -/
structure StorePath where
  hashPart : String
  name : String
deriving DecidableEq, Repr

/-- Rendering of a store path as an absolute path string
(`store.printStorePath`). -/
def printStorePath (storeDir : String) (p : StorePath) : String :=
  storeDir ++ "/" ++ p.hashPart ++ "-" ++ p.name

/-- Build modes, from `BuildMode` (`bmNormal`, `bmRepair`, `bmCheck`). -/
inductive BuildMode where
  | bmNormal
  | bmRepair
  | bmCheck
deriving DecidableEq, Repr

/-- Status of an output path known a priori.  Modelled from the spec:
`initialOutputs` records "whether final path is known a priori, whether
it is already valid"; the source additionally distinguishes a
present-but-corrupt path (`PathStatus` in the goal headers, which are
not part of the provided source tree). -/
inductive PathStatus where
  | corrupt
  | absent
  | valid
deriving DecidableEq, Repr

/-- Membership test `isPresent()`: the path exists on disk. -/
def PathStatus.isPresent (s : PathStatus) : Bool :=
  s ≠ PathStatus.absent

/-- Membership test `isValid()`: the path exists and is registered valid. -/
def PathStatus.isValid (s : PathStatus) : Bool :=
  s = PathStatus.valid

/-- A known initial output: its a-priori final path and its status. -/
structure InitialOutputStatus where
  path : StorePath
  status : PathStatus
deriving DecidableEq, Repr

/-- Per-output initial information (`InitialOutput`): `known` is `none`
for floating/impure outputs whose final path is unknown before the
build. -/
structure InitialOutput where
  known : Option InitialOutputStatus
deriving DecidableEq, Repr

/-- Insert-or-assign into an association list, mirroring
`std::map::insert_or_assign`. -/
def insertOrAssign {α β : Type} [BEq α] (k : α) (v : β) :
    List (α × β) → List (α × β)
  | [] => [(k, v)]
  | (k₁, v₁) :: rest =>
    if k₁ == k then (k, v) :: rest else (k₁, v₁) :: insertOrAssign k v rest

/-!
## Scratch-path selection (`DerivationBuilderImpl::startBuilder`)

The loop over `initialOutputs` that decides each output's scratch path,
installs placeholder and hash rewrites into `inputRewrites`, and records
redirected outputs.
-/

/-- Environment for the scratch-path computation.  `makeStorePath` is
the store's path-minting primitive (external to the provided source);
it is kept abstract as a function from the synthetic path-type string
and the output name to a store path. -/
structure ScratchEnv where
  storeDir : String
  drvPathString : String
  drvName : String
  needsHashRewrite : Bool
  buildMode : BuildMode
  makeStorePath : String → String → StorePath

/-- From the source of `outputPathName` (external helper): the name of
the store path for an output, `drvName` for output `out`, otherwise
`drvName-outputName`.  Modelled from the spec naming conventions. -/
def outputPathName (drvName outputName : String) : String :=
  if outputName = "out" then drvName else drvName ++ "-" ++ outputName

/-- Translation of `makeFallbackPath(OutputNameView)`: a synthetic path
of type string `rewrite:<drvPath>:name:<outputName>` with an
all-zeroes hash. -/
def makeFallbackPathForOutput (env : ScratchEnv) (outputName : String) : StorePath :=
  env.makeStorePath ("rewrite:" ++ env.drvPathString ++ ":name:" ++ outputName)
    (outputPathName env.drvName outputName)

/-- Translation of `makeFallbackPath(const StorePath &)`: a synthetic
path of type string `rewrite:<drvPath>:<path>` with an all-zeroes
hash. -/
def makeFallbackPathForPath (env : ScratchEnv) (p : StorePath) : StorePath :=
  env.makeStorePath ("rewrite:" ++ env.drvPathString ++ ":" ++ p.hashPart ++ "-" ++ p.name)
    p.name

/-- Translation of the conditional chain choosing `scratchPath` in
`startBuilder` (the ordered table: unknown final path, no hash rewrite
needed, final path not present, non-repair with invalid present path,
otherwise fallback). -/
def scratchPathChoice (env : ScratchEnv) (outputName : String)
    (status : InitialOutput) : StorePath :=
  match status.known with
  | none => makeFallbackPathForOutput env outputName
  | some known =>
    if ¬ env.needsHashRewrite then known.path
    else if ¬ known.status.isPresent then known.path
    else if env.buildMode ≠ BuildMode.bmRepair ∧ ¬ known.status.isValid then known.path
    else makeFallbackPathForPath env known.path

/-- Placeholder string for an output (`hashPlaceholder`, external to the
provided source).  Modelled from the spec: an output-specific dummy
token substituted by the scratch path. -/
def hashPlaceholder (outputName : String) : String :=
  "/placeholder-" ++ outputName

/-- Mutable state touched by the per-output scratch setup in
`startBuilder`. -/
structure ScratchState where
  scratchOutputs : List (String × StorePath)
  inputRewrites : List (String × String)
  redirectedOutputs : List (StorePath × StorePath)
deriving Repr

/-- One iteration of the `startBuilder` loop over `initialOutputs`:
choose the scratch path, install the placeholder rewrite, and if the
final path is known and differs from the scratch path, install the
`finalHash -> scratchHash` input rewrite and record the redirection. -/
def processScratchOutput (env : ScratchEnv) (st : ScratchState)
    (outputName : String) (status : InitialOutput) : ScratchState :=
  let scratchPath := scratchPathChoice env outputName status
  let st :=
    { st with
      scratchOutputs := insertOrAssign outputName scratchPath st.scratchOutputs
      inputRewrites :=
        insertOrAssign (hashPlaceholder outputName)
          (printStorePath env.storeDir scratchPath) st.inputRewrites }
  match status.known with
  | none => st
  | some known =>
    if known.path = scratchPath then st
    else
      { st with
        inputRewrites :=
          insertOrAssign known.path.hashPart scratchPath.hashPart st.inputRewrites
        redirectedOutputs :=
          insertOrAssign known.path scratchPath st.redirectedOutputs }

/-!
## Failure classification (`unprepareBuild`, `cleanupDecideWhetherDiskFull`)
-/

/-- Exit status of the builder process: normal exit with a code, or
killed by a signal. -/
inductive BuilderStatus where
  | exited (code : Nat)
  | signaled (sig : Nat)
deriving DecidableEq, Repr

/-- Modelled from the spec: `statusOk` (external helper) holds exactly
for a normal exit with code zero; a non-zero exit or a signal is not
ok. -/
def statusOk (s : BuilderStatus) : Bool :=
  s = BuilderStatus.exited 0

/-- Translation of `cleanupDecideWhetherDiskFull`: the build is deemed
to have run out of disk if a successful `statvfs` on the real store
directory or on the temp directory reports fewer than 8 MiB free
(`f_bavail * f_bsize`).  A failed `statvfs` call (`none`) contributes
nothing. -/
def cleanupDecideWhetherDiskFull
    (freeBytesStoreDir freeBytesTmpDir : Option Nat) : Bool :=
  let required := 8 * 1024 * 1024
  let diskFull := false
  let diskFull := diskFull ||
    (match freeBytesStoreDir with
     | some f => decide (f < required)
     | none => false)
  let diskFull := diskFull ||
    (match freeBytesTmpDir with
     | some f => decide (f < required)
     | none => false)
  diskFull

/-- The terminal failure kinds assigned by `unprepareBuild`'s catch
block (`BuildResult::Status`). -/
inductive BuildStatus where
  | NotDeterministic
  | OutputRejected
  | TransientFailure
  | PermanentFailure
deriving DecidableEq, Repr

/-- Translation of the status selection in `unprepareBuild`'s catch
block: `NotDeterministic` for a `NotDeterministic` exception, else
`OutputRejected` when the builder itself exited cleanly, else
`TransientFailure` when the derivation is not sandboxed or the disk is
full, else `PermanentFailure`. -/
def classifyBuildError
    (isNotDeterministicError statusOkFlag sandboxed diskFull : Bool) : BuildStatus :=
  if isNotDeterministicError then BuildStatus.NotDeterministic
  else if statusOkFlag then BuildStatus.OutputRejected
  else if !sandboxed || diskFull then BuildStatus.TransientFailure
  else BuildStatus.PermanentFailure

/-- The failure path of `unprepareBuild` for a builder that did not
exit cleanly: the `BuildError` thrown for a failed builder is a plain
build error (not `NotDeterministic`), and `diskFull` is computed by
`cleanupDecideWhetherDiskFull`.  Returns `none` when the builder
exited cleanly (the build then proceeds to output registration). -/
def unprepareBuilderFailureStatus (status : BuilderStatus) (sandboxed : Bool)
    (freeBytesStoreDir freeBytesTmpDir : Option Nat) : Option BuildStatus :=
  if statusOk status then none
  else
    some (classifyBuildError false (statusOk status) sandboxed
      (cleanupDecideWhetherDiskFull freeBytesStoreDir freeBytesTmpDir))

/-!
## Build preparation (`DerivationBuilderImpl::prepareBuild`)
-/

/-- The two host families the source distinguishes with preprocessor
conditionals. -/
inductive Platform where
  | linux
  | darwin
deriving DecidableEq, Repr

/-- The three-valued host sandbox setting. -/
inductive SandboxMode where
  | smEnabled
  | smDisabled
  | smRelaxed
deriving DecidableEq, Repr

/-- The inputs `prepareBuild` consults: host settings, derivation
options, and the availability of a build-user lock
(`acquireUserLock`). -/
structure PrepareEnv where
  platform : Platform
  sandboxMode : SandboxMode
  noChroot : Bool
  additionalSandboxProfile : String
  derivationIsSandboxed : Bool
  storeDirDiverted : Bool
  mountAndPidNamespacesSupported : Bool
  sandboxFallback : Bool
  useBuildUsers : Bool
  buildUserAlreadySet : Bool
  userLockAvailable : Bool

/-- The configuration errors `prepareBuild` can throw. -/
inductive PrepareError where
  | noChrootNotAllowed
  | sandboxProfileNotAllowed
  | divertedStoreUnsupported
  | namespacesUnsupported
deriving DecidableEq, Repr

/-- First block of `prepareBuild`: decide `useChroot` from the sandbox
mode, rejecting `__noChroot` under enforced sandboxing and (on Darwin)
a sandbox profile under enforced sandboxing. -/
def sandboxModeDecision (env : PrepareEnv) : Except PrepareError Bool :=
  match env.sandboxMode with
  | SandboxMode.smEnabled =>
    if env.noChroot = true then Except.error PrepareError.noChrootNotAllowed
    else if env.platform = Platform.darwin ∧ env.additionalSandboxProfile ≠ "" then
      Except.error PrepareError.sandboxProfileNotAllowed
    else Except.ok true
  | SandboxMode.smDisabled => Except.ok false
  | SandboxMode.smRelaxed => Except.ok (env.derivationIsSandboxed && !env.noChroot)

/-- Second block of `prepareBuild`: a diverted store forces chroot on
Linux and is unsupported elsewhere. -/
def divertedStoreDecision (env : PrepareEnv) (useChroot : Bool) :
    Except PrepareError Bool :=
  if env.storeDirDiverted = true then
    match env.platform with
    | Platform.linux => Except.ok true
    | Platform.darwin => Except.error PrepareError.divertedStoreUnsupported
  else Except.ok useChroot

/-- Third block of `prepareBuild` (Linux only): without mount and PID
namespaces, sandboxing either falls back to no-chroot or is a
configuration error. -/
def namespacesDecision (env : PrepareEnv) (useChroot : Bool) :
    Except PrepareError Bool :=
  if env.platform = Platform.linux ∧ useChroot = true ∧
      env.mountAndPidNamespacesSupported = false then
    if env.sandboxFallback = false then Except.error PrepareError.namespacesUnsupported
    else Except.ok false
  else Except.ok useChroot

/-- Translation of `prepareBuild`: the three configuration blocks in
order, then the build-user acquisition; `false` is returned exactly
when build users are in use, none is already set, and no user lock
could be acquired. -/
def prepareBuild (env : PrepareEnv) : Except PrepareError Bool :=
  match sandboxModeDecision env with
  | Except.error e => Except.error e
  | Except.ok uc =>
    match divertedStoreDecision env uc with
    | Except.error e => Except.error e
    | Except.ok uc₂ =>
      match namespacesDecision env uc₂ with
      | Except.error e => Except.error e
      | Except.ok _ =>
        if env.useBuildUsers = true then
          if env.buildUserAlreadySet = true ∨ env.userLockAvailable = true then Except.ok true
          else Except.ok false
        else Except.ok true

/-!
## Recursive-daemon dependency addition (`DerivationBuilderImpl::addDependency`)
-/

/-- The errors `addDependency` can throw. -/
inductive AddDepError where
  | alreadyExistsInSandbox (p : StorePath)
  | couldNotAddToSandbox (p : StorePath)
  | sandboxUnsupported (p : StorePath)
deriving DecidableEq, Repr

/-- The state `addDependency` reads and mutates: the allowlist parts
(`inputPaths`, `addedPaths`) and, for chroot builds, which store paths
already exist inside the chroot. -/
structure AddDepState where
  inputPaths : List StorePath
  addedPaths : List StorePath
  sandboxContents : List StorePath
deriving DecidableEq, Repr

/-- Translation of `isAllowed(const StorePath &)`: a path is allowed
iff it is an input path or was added by a previous recursive call. -/
def isAllowed (st : AddDepState) (p : StorePath) : Bool :=
  st.inputPaths.contains p || st.addedPaths.contains p

/-- Translation of `addDependency`: an already-allowed path returns
immediately; otherwise the path is added to `addedPaths` and, for
chroot builds on Linux, bind-mounted into the live sandbox by a helper
process (an error if the target already exists in the chroot or the
helper fails; unsupported off Linux). -/
def addDependency (platform : Platform) (useChroot bindMountSucceeds : Bool)
    (st : AddDepState) (p : StorePath) : Except AddDepError AddDepState :=
  if isAllowed st p then Except.ok st
  else
    let st₂ := { st with addedPaths := p :: st.addedPaths }
    if useChroot then
      match platform with
      | Platform.linux =>
        if st₂.sandboxContents.contains p then
          Except.error (AddDepError.alreadyExistsInSandbox p)
        else if bindMountSucceeds then
          Except.ok { st₂ with sandboxContents := p :: st₂.sandboxContents }
        else Except.error (AddDepError.couldNotAddToSandbox p)
      | Platform.darwin => Except.error (AddDepError.sandboxUnsupported p)
    else Except.ok st₂

/-!
## Output registration, phase 1 (`registerOutputs`: existence, ownership,
permission canonicalisation, reference scan)
-/

/-- The `lstat` metadata the registration check consults. -/
structure FileStat where
  st_mode : Nat
  st_uid : Nat
deriving DecidableEq, Repr

/-- POSIX file-type mask. -/
def S_IFMT : Nat := 0o170000

/-- POSIX symlink file type. -/
def S_IFLNK : Nat := 0o120000

/-- POSIX regular-file file type. -/
def S_IFREG : Nat := 0o100000

/-- POSIX group-write permission bit. -/
def S_IWGRP : Nat := 0o020

/-- POSIX other-write permission bit. -/
def S_IWOTH : Nat := 0o002

/-- POSIX owner-execute permission bit. -/
def S_IXUSR : Nat := 0o100

/-- POSIX symlink test on a raw mode word. -/
def S_ISLNK (mode : Nat) : Bool :=
  Nat.land mode S_IFMT = S_IFLNK

/-- POSIX regular-file test on a raw mode word. -/
def S_ISREG (mode : Nat) : Bool :=
  Nat.land mode S_IFMT = S_IFREG

/-- Translation of the suspicious-ownership test in `registerOutputs`:
a non-symlink with group- or world-writable bits, or (when building
under a build user) a file not owned by the build user. -/
def suspiciousOwnership (buildUser : Option Nat) (st : FileStat) : Bool :=
  (!(S_ISLNK st.st_mode) && decide (Nat.land st.st_mode (Nat.lor S_IWGRP S_IWOTH) ≠ 0))
  || (match buildUser with
      | some uid => decide (st.st_uid ≠ uid)
      | none => false)

/-- Modelled from the spec: `scanForReferences` (external to the
provided source) scans the output tree's bytes for hash parts drawn
from the allowlist; a path is found iff its hash part occurs in the
bytes.  The byte content of a tree is abstracted to the list of
hash-part substrings occurring in it. -/
def scanForReferences (contents : List String) (allowlist : List StorePath) :
    List StorePath :=
  allowlist.filter (fun p => contents.contains p.hashPart)

/-- Per-output conclusion of the first `registerOutputs` loop. -/
inductive OutputRefsInfo where
  | alreadyRegistered (path : StorePath)
  | perhapsNeedToRegister (refs : List StorePath)
deriving DecidableEq, Repr

/-- The build errors the first `registerOutputs` loop can throw. -/
inductive Phase1Error where
  | noScratchOutput (name : String)
  | noInitialOutput (name : String)
  | missingOutput (name : String)
  | suspiciousOutput (name : String)
deriving DecidableEq, Repr

/-- Inputs of the first `registerOutputs` loop.  `lstat` abstracts the
filesystem at the builder's scratch locations; `contents` abstracts a
tree's bytes as the list of hash-part substrings occurring in them. -/
structure Phase1Env where
  buildMode : BuildMode
  buildUser : Option Nat
  inputPaths : List StorePath
  addedPaths : List StorePath
  scratchOutputs : List (String × StorePath)
  initialOutputs : List (String × InitialOutput)
  unsafeDiscardReferences : List (String × Bool)
  lstat : StorePath → Option FileStat
  contents : StorePath → List String

/-- Translation of `referenceablePaths`: the input closures, the
scratch output paths, and paths added by recursive calls. -/
def referenceablePaths (env : Phase1Env) : List StorePath :=
  env.inputPaths ++ env.scratchOutputs.map Prod.snd ++ env.addedPaths

/-- Result of the first loop for one output that may need
registration: its reference conclusion, whether its metadata was
canonicalised, and its saved stat entry (`outputStats`). -/
structure Phase1Result where
  info : OutputRefsInfo
  canonicalised : Bool
  stat : Option FileStat
deriving DecidableEq, Repr

/-- The existence/ownership/canonicalise/scan part of the first
`registerOutputs` loop for one wanted output: reject a missing scratch
path; reject suspicious ownership or permissions; canonicalise; then
compute references by scanning (or discard them when
`unsafeDiscardReferences` is set for this output). -/
def phase1Scan (env : Phase1Env) (outputName : String) (scratchPath : StorePath) :
    Except Phase1Error Phase1Result :=
  match env.lstat scratchPath with
  | none => Except.error (Phase1Error.missingOutput outputName)
  | some st =>
    if suspiciousOwnership env.buildUser st = true then
      Except.error (Phase1Error.suspiciousOutput outputName)
    else
      let discardReferences := (List.lookup outputName env.unsafeDiscardReferences).getD false
      let references :=
        if discardReferences = true then []
        else scanForReferences (env.contents scratchPath) (referenceablePaths env)
      Except.ok
        { info := OutputRefsInfo.perhapsNeedToRegister references
          canonicalised := true
          stat := some st }

/-- Translation of one iteration of the first `registerOutputs` loop:
fetch the scratch and initial info (build errors if absent); an output
that is already valid and not being re-checked is `AlreadyRegistered`
and skipped; otherwise run the scan part. -/
def phase1One (env : Phase1Env) (outputName : String) : Except Phase1Error Phase1Result :=
  match List.lookup outputName env.scratchOutputs with
  | none => Except.error (Phase1Error.noScratchOutput outputName)
  | some scratchPath =>
    match List.lookup outputName env.initialOutputs with
    | none => Except.error (Phase1Error.noInitialOutput outputName)
    | some initialInfo =>
      match initialInfo.known with
      | some known =>
        if env.buildMode ≠ BuildMode.bmCheck ∧ known.status.isValid = true then
          Except.ok
            { info := OutputRefsInfo.alreadyRegistered known.path
              canonicalised := false
              stat := none }
        else phase1Scan env outputName scratchPath
      | none => phase1Scan env outputName scratchPath

/-- The first `registerOutputs` loop over all declared output names. -/
def phase1 (env : Phase1Env) (outputNames : List String) :
    Except Phase1Error (List (String × Phase1Result)) :=
  outputNames.mapM (fun n => (phase1One env n).map (fun r => (n, r)))

/-!
## Output registration, topological ordering (`registerOutputs`)
-/

/-- The cycle error raised during output sorting ("cycle detected in
build of ... in the references of output `path` from output
`parent`"). -/
inductive TopoError where
  | referenceCycle (path parent : String)
deriving DecidableEq, Repr

/-- Translation of the `getChildren` closure passed to `topoSort` in
`registerOutputs`: an `AlreadyRegistered` output is a leaf with no
outbound edges; an output that perhaps needs registration points at
every output whose scratch path occurs among its scanned references. -/
def getChildren (scratchOutputs : List (String × StorePath))
    (orifu : List (String × OutputRefsInfo)) (name : String) : List String :=
  match List.lookup name orifu with
  | some (OutputRefsInfo.alreadyRegistered _) => []
  | some (OutputRefsInfo.perhapsNeedToRegister refs) =>
    (scratchOutputs.filter (fun op => refs.contains op.2)).map Prod.fst
  | none => []

/-- An output has no pending edge when every output it references is
itself or is no longer in the remaining set (self-references and
outputs outside the set are ignored, as in `topoSort`). -/
def noPendingEdge (children : String → List String) (remaining : List String)
    (x : String) : Bool :=
  (children x).all (fun c => c == x || !(remaining.contains c))

/-- Modelled from the spec: `topoSort` (nix's libutil, outside the
provided source) composed with the order reversal performed by
`registerOutputs`, so outputs are emitted leaves-first: repeatedly emit
an output all of whose referenced outputs have already been emitted;
when none exists the remaining outputs all have pending edges and a
`ReferenceCycle` error naming an edge of the stuck set is raised.  The
fuel argument bounds recursion depth; one element is removed per step,
so fuel equal to the list length (as supplied by
`topoSortLeavesFirst`) never runs out. -/
def topoSortAux (children : String → List String) :
    Nat → List String → Except TopoError (List String)
  | _, [] => Except.ok []
  | 0, parent :: _ => Except.error (TopoError.referenceCycle parent parent)
  | fuel+1, parent :: rest =>
    match (parent :: rest).find? (noPendingEdge children (parent :: rest)) with
    | some x =>
      match topoSortAux children fuel ((parent :: rest).erase x) with
      | Except.ok sorted => Except.ok (x :: sorted)
      | Except.error e => Except.error e
    | none =>
      match (children parent).find?
          (fun c => !(c == parent) && (parent :: rest).contains c) with
      | some path => Except.error (TopoError.referenceCycle path parent)
      | none => Except.error (TopoError.referenceCycle parent parent)

/-- The leaves-first output ordering of `registerOutputs`
(`topoSort` followed by `std::reverse`). -/
def topoSortLeavesFirst (children : String → List String) (items : List String) :
    Except TopoError (List String) :=
  topoSortAux children items.length items

/-- The reference edge between outputs: `refEdge a b` holds when output
`a` references output `b` (and `b` is not `a` itself; self-references
are ignored by the sort). -/
def refEdge (children : String → List String) (a b : String) : Prop :=
  b ∈ children a ∧ b ≠ a

/-!
## Output registration, per-output finalization and commit
(`registerOutputs`, second loop and final registration)
-/

/-- Output addressing modes (`DerivationOutput`), reduced to what the
finalization step consumes: the a-priori path for input-addressed
outputs, the declared hash for fixed outputs, and whether the
ingestion method is flat (which requires a non-executable regular
file). -/
inductive DerivationOutputT where
  | inputAddressed (path : StorePath)
  | caFixed (flat : Bool) (wanted : String)
  | caFloating (flat : Bool)
  | deferred
  | impure (flat : Bool)
deriving DecidableEq, Repr

/-- Scanned references split into the self reference and the others
(`StoreReferences`). -/
structure StoreReferences where
  self : Bool
  others : List StorePath
deriving DecidableEq, Repr

/-- Translation of the `rewriteRefs` closure: a reference equal to the
scratch path is flagged as a self reference; other references have
their hash parts replaced through `outputRewrites` when a rewrite is
installed. -/
def rewriteRefs (scratchPath : StorePath) (outputRewrites : List (String × String))
    (references : List StorePath) : StoreReferences :=
  { self := references.contains scratchPath
    others := (references.filter (fun r => decide (r ≠ scratchPath))).map (fun r =>
      match List.lookup r.hashPart outputRewrites with
      | some newHash => { hashPart := newHash, name := r.name }
      | none => r) }

/-- SRI rendering of a hash (`Hash::to_string(HashFormat::SRI, true)`),
modelled as tagging the raw hash string with its algorithm. -/
def sriOf (h : String) : String :=
  "sha256-" ++ h

/-- The delayed exceptions of the fixed-output case: a hash mismatch
citing both hashes in SRI form, or a forbidden non-empty reference
set. -/
inductive DelayedError where
  | hashMismatch (specified got : String)
  | fixedOutputReferences (numViolations : Nat) (samplePath : StorePath)
deriving DecidableEq, Repr

/-- The build errors of the finalization stage. -/
inductive FinalizeError where
  | missingDrvOutput (name : String)
  | missingScratchPath (name : String)
  | missingOutputRefsInfo (name : String)
  | missingStatsInfo (name : String)
  | flatOutputNotRegularFile (name : String)
  | deferredOutputUnreachable (name : String)
  | notDeterministic (name : String)
  | delayed (e : DelayedError)
  | phase1Failed (e : Phase1Error)
  | referenceCycle (path parent : String)
  | outputCheckFailed (name : String)
deriving DecidableEq, Repr

/-- Inputs and oracles of the finalization stage.  `caHash name` is the
content hash of the rewritten output tree (computed externally,
hash-modulo the scratch self reference); `caPath name` the store path
derived from that hash and the rewritten references; `narHash name`
the archival hash of the finalized tree; `storeIsValidPath`,
`storePathNarHash` and `storePathUltimate` describe the live store for
Check-mode comparisons; `maxSize`/`narSize` feed the output-checks
slice. -/
structure FinalizeEnv where
  buildMode : BuildMode
  drvOutputs : List (String × DerivationOutputT)
  scratchOutputs : List (String × StorePath)
  caHash : String → String
  caPath : String → StorePath
  narHash : String → String
  narSize : String → Nat
  storeIsValidPath : StorePath → Bool
  storePathNarHash : StorePath → String
  storePathUltimate : StorePath → Bool
  maxSize : Option Nat

/-- Mutable state of the finalization loop: the `outputRewrites` table,
the final output map, the collected `infos` (output name, final path,
whether content-addressed), the trace of `registerValidPaths` calls
(each entry is the set of paths registered by one call), and the
delayed exception slot. -/
structure RegisterState where
  outputRewrites : List (String × String)
  finalOutputs : List (String × StorePath)
  infos : List (String × StorePath × Bool)
  registrations : List (List StorePath)
  delayed : Option DelayedError
deriving Repr

/-- Translation of the `finish` closure: record the final path and, if
the scratch path differs, install the `scratchHash -> finalHash`
rewrite into `outputRewrites` (used by downstream outputs, which is why
the topological order matters). -/
def finishOutput (outputName : String) (scratchPath finalStorePath : StorePath)
    (st : RegisterState) : RegisterState :=
  { st with
    finalOutputs := insertOrAssign outputName finalStorePath st.finalOutputs
    outputRewrites :=
      if scratchPath ≠ finalStorePath then
        insertOrAssign scratchPath.hashPart finalStorePath.hashPart st.outputRewrites
      else st.outputRewrites }

/-- Translation of `newInfoFromCA`: require stats, require a
non-executable regular file under flat ingestion, rewrite the tree
(no observable effect on the oracles of this model), obtain the got
hash and the derived path, and rewrite the scanned references
(re-attaching a self reference to the new path, as
`ContentAddressWithReferences::fromParts` does for the resulting
`ValidPathInfo`). -/
def newInfoFromCA (env : FinalizeEnv) (st : RegisterState) (outputName : String)
    (scratchPath : StorePath) (stats : Option FileStat) (flat : Bool)
    (references : List StorePath) :
    Except FinalizeError (StorePath × List StorePath × String) :=
  match stats with
  | none => Except.error (FinalizeError.missingStatsInfo outputName)
  | some fstat =>
    if flat = true ∧ (S_ISREG fstat.st_mode = false ∨ Nat.land fstat.st_mode S_IXUSR ≠ 0) then
      Except.error (FinalizeError.flatOutputNotRegularFile outputName)
    else
      let got := env.caHash outputName
      let refs := rewriteRefs scratchPath st.outputRewrites references
      let newPath := env.caPath outputName
      let newRefs := refs.others ++ (if refs.self then [newPath] else [])
      Except.ok (newPath, newRefs, got)

/-- Translation of the tail of a loop iteration (placement, Check-mode
comparison, signing and registration): in Check mode compare archival
hashes against the previously registered info (`NotDeterministic` on
mismatch, re-registering a not-yet-ultimate old info on match, adding
no new info); otherwise record the final path, register a
content-addressed path right away, and append the output's info for
the final commit. -/
def registerStep (env : FinalizeEnv) (st : RegisterState) (outputName : String)
    (scratchPath newPath : StorePath) (isCA : Bool)
    (delayed : Option DelayedError) : Except FinalizeError RegisterState :=
  if env.buildMode = BuildMode.bmCheck then
    if env.storeIsValidPath newPath = false then
      Except.ok { st with delayed := delayed }
    else if env.narHash outputName ≠ env.storePathNarHash newPath then
      Except.error (FinalizeError.notDeterministic outputName)
    else
      let st₂ :=
        if env.storePathUltimate newPath = false then
          { st with registrations := st.registrations ++ [[newPath]] }
        else st
      Except.ok { st₂ with delayed := delayed }
  else
    let st₂ := finishOutput outputName scratchPath newPath { st with delayed := delayed }
    let st₃ :=
      if isCA then
        { st₂ with registrations := st₂.registrations ++ [[newPath]] }
      else st₂
    Except.ok { st₃ with infos := st₃.infos ++ [(outputName, newPath, isCA)] }

/-- Translation of one iteration of the finalization loop
(`std::visit` over the output's addressing mode). -/
def finalizeOne (env : FinalizeEnv) (phase1Results : List (String × Phase1Result))
    (st : RegisterState) (outputName : String) : Except FinalizeError RegisterState :=
  match List.lookup outputName env.drvOutputs with
  | none => Except.error (FinalizeError.missingDrvOutput outputName)
  | some output =>
    match List.lookup outputName env.scratchOutputs with
    | none => Except.error (FinalizeError.missingScratchPath outputName)
    | some scratchPath =>
      match List.lookup outputName phase1Results with
      | none => Except.error (FinalizeError.missingOutputRefsInfo outputName)
      | some p1 =>
        match p1.info with
        | OutputRefsInfo.alreadyRegistered skippedFinalPath =>
          Except.ok (finishOutput outputName scratchPath skippedFinalPath st)
        | OutputRefsInfo.perhapsNeedToRegister references =>
          match output with
          | DerivationOutputT.inputAddressed requiredFinalPath =>
            let rewrites₂ :=
              if scratchPath ≠ requiredFinalPath then
                insertOrAssign scratchPath.hashPart requiredFinalPath.hashPart
                  st.outputRewrites
              else st.outputRewrites
            let st₂ := { st with outputRewrites := rewrites₂ }
            registerStep env st₂ outputName scratchPath requiredFinalPath false st₂.delayed
          | DerivationOutputT.caFixed flat wanted =>
            match newInfoFromCA env st outputName scratchPath p1.stat flat references with
            | Except.error e => Except.error e
            | Except.ok (newPath, newRefs, got) =>
              let delayed₁ :=
                if wanted ≠ got then
                  some (DelayedError.hashMismatch (sriOf wanted) (sriOf got))
                else st.delayed
              let delayed₂ :=
                if newRefs ≠ [] then
                  some (DelayedError.fixedOutputReferences newRefs.length
                    (newRefs.head?.getD scratchPath))
                else delayed₁
              registerStep env st outputName scratchPath newPath true delayed₂
          | DerivationOutputT.caFloating flat =>
            match newInfoFromCA env st outputName scratchPath p1.stat flat references with
            | Except.error e => Except.error e
            | Except.ok (newPath, _, _) =>
              registerStep env st outputName scratchPath newPath true st.delayed
          | DerivationOutputT.deferred =>
            Except.error (FinalizeError.deferredOutputUnreachable outputName)
          | DerivationOutputT.impure flat =>
            match newInfoFromCA env st outputName scratchPath p1.stat flat references with
            | Except.error e => Except.error e
            | Except.ok (newPath, _, _) =>
              registerStep env st outputName scratchPath newPath true st.delayed

/-- The finalization loop over the sorted output names.  A thrown build
error aborts the loop, but the registrations already performed remain
(C++ exception semantics); within one iteration no registration
precedes a throw. -/
def finalizeLoop (env : FinalizeEnv) (phase1Results : List (String × Phase1Result)) :
    RegisterState → List String → RegisterState × Option FinalizeError
  | st, [] => (st, none)
  | st, n :: rest =>
    match finalizeOne env phase1Results st n with
    | Except.ok st₂ => finalizeLoop env phase1Results st₂ rest
    | Except.error e => (st, some e)

/-- Slice of `checkOutputs`: the `maxSize` check.  The remaining checks
(closure size, allowed and disallowed references and requisites)
likewise only throw a `BuildError` between the loop and the final
commit and register nothing. -/
def checkOutputsModel (env : FinalizeEnv) (infos : List (String × StorePath × Bool)) :
    Option FinalizeError :=
  match env.maxSize with
  | none => none
  | some maxSize =>
    match infos.find? (fun i => decide (maxSize < env.narSize i.1)) with
    | some i => some (FinalizeError.outputCheckFailed i.1)
    | none => none

/-- The observable result of `registerOutputs`: the trace of
`registerValidPaths` calls and the outcome (built outputs or a build
error). -/
structure RegisterOutputsResult where
  registrations : List (List StorePath)
  outcome : Except FinalizeError (List (String × StorePath))
deriving Repr

/-- Translation of `registerOutputs` end to end on this model: the
first loop (existence, ownership, reference scan), the leaves-first
topological sort, the finalization loop, the output checks, the single
`registerValidPaths` commit of all registered outputs, and the rethrow
of any delayed exception only after that commit.  In Check mode the
delayed exception is rethrown without a final commit. -/
def registerOutputsRun (env : FinalizeEnv) (p1env : Phase1Env) : RegisterOutputsResult :=
  let outputNames := env.drvOutputs.map Prod.fst
  match phase1 p1env outputNames with
  | Except.error e =>
    { registrations := [], outcome := Except.error (FinalizeError.phase1Failed e) }
  | Except.ok phase1Results =>
    let children := getChildren env.scratchOutputs
      (phase1Results.map (fun nr => (nr.1, nr.2.info)))
    match topoSortLeavesFirst children outputNames with
    | Except.error (TopoError.referenceCycle p q) =>
      { registrations := [], outcome := Except.error (FinalizeError.referenceCycle p q) }
    | Except.ok sortedOutputNames =>
      let init : RegisterState :=
        { outputRewrites := [], finalOutputs := [], infos := []
          registrations := [], delayed := none }
      match finalizeLoop env phase1Results init sortedOutputNames with
      | (st, some e) => { registrations := st.registrations, outcome := Except.error e }
      | (st, none) =>
        if env.buildMode = BuildMode.bmCheck then
          match st.delayed with
          | some d =>
            { registrations := st.registrations
              outcome := Except.error (FinalizeError.delayed d) }
          | none =>
            { registrations := st.registrations, outcome := Except.ok st.finalOutputs }
        else
          match checkOutputsModel env st.infos with
          | some e => { registrations := st.registrations, outcome := Except.error e }
          | none =>
            let commit := st.infos.map (fun i => i.2.1)
            let registrations := st.registrations ++ [commit]
            match st.delayed with
            | some d => { registrations := registrations
                          outcome := Except.error (FinalizeError.delayed d) }
            | none => { registrations := registrations
                        outcome := Except.ok st.finalOutputs }

/-! ## Theorems -/

/-- Membership of a key-value pair in an association list after
`insertOrAssign` of that very pair. -/
theorem mem_insertOrAssign_self {α β : Type} [BEq α] [LawfulBEq α]
    (k : α) (v : β) (m : List (α × β)) : (k, v) ∈ insertOrAssign k v m := by
  induction m with
  | nil => simp [insertOrAssign]
  | cons hd tl ih =>
    obtain ⟨k₁, v₁⟩ := hd
    by_cases h : k₁ = k
    · simp [insertOrAssign, h]
    · simp only [insertOrAssign, beq_iff_eq, h, if_false]
      exact List.mem_cons_of_mem _ ih

/-- C1: each output's scratch path is chosen by the ordered table of
`startBuilder` (unknown final path uses a fallback path; no hash
rewriting needed uses the final path; final path not present on disk
uses the final path; non-Repair build mode with an invalid present
final path uses the final path; otherwise a fallback path derived from
the final path), and whenever the chosen scratch path differs from a
known final path, the `finalHash -> scratchHash` rewrite is installed
into `inputRewrites` and the pair `(finalPath, scratchPath)` is
recorded in `redirectedOutputs`. -/
theorem scratchPath_table_C1 (env : ScratchEnv) (outputName : String)
    (status : InitialOutput) (st : ScratchState) :
    (status.known = none →
      scratchPathChoice env outputName status = makeFallbackPathForOutput env outputName)
    ∧ (∀ known, status.known = some known →
        (env.needsHashRewrite = false →
          scratchPathChoice env outputName status = known.path)
        ∧ (env.needsHashRewrite = true → known.status.isPresent = false →
          scratchPathChoice env outputName status = known.path)
        ∧ (env.needsHashRewrite = true → known.status.isPresent = true →
            env.buildMode ≠ BuildMode.bmRepair → known.status.isValid = false →
          scratchPathChoice env outputName status = known.path)
        ∧ (env.needsHashRewrite = true → known.status.isPresent = true →
            (env.buildMode = BuildMode.bmRepair ∨ known.status.isValid = true) →
          scratchPathChoice env outputName status = makeFallbackPathForPath env known.path))
    ∧ (∀ known, status.known = some known →
        scratchPathChoice env outputName status ≠ known.path →
        (known.path.hashPart, (scratchPathChoice env outputName status).hashPart) ∈
          (processScratchOutput env st outputName status).inputRewrites
        ∧ (known.path, scratchPathChoice env outputName status) ∈
          (processScratchOutput env st outputName status).redirectedOutputs) := by
  refine ⟨?_, ?_, ?_⟩
  · intro h
    simp [scratchPathChoice, h]
  · intro known hk
    refine ⟨?_, ?_, ?_, ?_⟩
    · intro hnr
      simp [scratchPathChoice, hk, hnr]
    · intro hnr hp
      simp [scratchPathChoice, hk, hnr, hp]
    · intro hnr hp hmode hvalid
      simp [scratchPathChoice, hk, hnr, hp, hmode, hvalid]
    · intro hnr hp hcond
      rcases hcond with hmode | hvalid
      · simp [scratchPathChoice, hk, hnr, hp, hmode]
      · simp [scratchPathChoice, hk, hnr, hp, hvalid]
  · intro known hk hne
    have hgoal :
        processScratchOutput env st outputName status =
          (let scratchPath := scratchPathChoice env outputName status
           let st₁ :=
            { st with
              scratchOutputs := insertOrAssign outputName scratchPath st.scratchOutputs
              inputRewrites :=
                insertOrAssign (hashPlaceholder outputName)
                  (printStorePath env.storeDir scratchPath) st.inputRewrites }
           { st₁ with
             inputRewrites :=
               insertOrAssign known.path.hashPart scratchPath.hashPart st₁.inputRewrites
             redirectedOutputs :=
               insertOrAssign known.path scratchPath st₁.redirectedOutputs }) := by
      simp only [processScratchOutput, hk]
      rw [if_neg (fun h => hne h.symm)]
    rw [hgoal]
    exact ⟨mem_insertOrAssign_self _ _ _, mem_insertOrAssign_self _ _ _⟩

/-- Concrete instantiation of the C1 theorem: an already-valid known
final path, under hash rewriting in normal mode, is redirected to the
fallback path and the redirection is recorded. -/
theorem scratchPath_table_C1_witness :
    scratchPathChoice
        { storeDir := "/nix/store", drvPathString := "d", drvName := "foo"
          needsHashRewrite := true, buildMode := BuildMode.bmNormal
          makeStorePath := fun _ n => { hashPart := "fffff", name := n } }
        "out" { known := some { path := { hashPart := "abc", name := "foo" },
                                status := PathStatus.valid } }
      = { hashPart := "fffff", name := "foo" }
    ∧ (({ hashPart := "abc", name := "foo" } : StorePath),
       ({ hashPart := "fffff", name := "foo" } : StorePath)) ∈
      (processScratchOutput
        { storeDir := "/nix/store", drvPathString := "d", drvName := "foo"
          needsHashRewrite := true, buildMode := BuildMode.bmNormal
          makeStorePath := fun _ n => { hashPart := "fffff", name := n } }
        { scratchOutputs := [], inputRewrites := [], redirectedOutputs := [] }
        "out" { known := some { path := { hashPart := "abc", name := "foo" },
                                status := PathStatus.valid } }).redirectedOutputs := by
  refine ⟨?_, ?_⟩
  · exact ((scratchPath_table_C1
      { storeDir := "/nix/store", drvPathString := "d", drvName := "foo"
        needsHashRewrite := true, buildMode := BuildMode.bmNormal
        makeStorePath := fun _ n => { hashPart := "fffff", name := n } }
      "out" { known := some { path := { hashPart := "abc", name := "foo" },
                              status := PathStatus.valid } }
      { scratchOutputs := [], inputRewrites := [], redirectedOutputs := [] }).2.1
      _ rfl).2.2.2 rfl rfl (Or.inr rfl)
  · exact ((scratchPath_table_C1
      { storeDir := "/nix/store", drvPathString := "d", drvName := "foo"
        needsHashRewrite := true, buildMode := BuildMode.bmNormal
        makeStorePath := fun _ n => { hashPart := "fffff", name := n } }
      "out" { known := some { path := { hashPart := "abc", name := "foo" },
                              status := PathStatus.valid } }
      { scratchOutputs := [], inputRewrites := [], redirectedOutputs := [] }).2.2
      _ rfl (by decide)).2

/-- Characterisation of the errors of the first `prepareBuild` block. -/
theorem sandboxModeDecision_error_char (env : PrepareEnv) (e : PrepareError)
    (h : sandboxModeDecision env = Except.error e) :
    (e = PrepareError.noChrootNotAllowed ∧
      env.sandboxMode = SandboxMode.smEnabled ∧ env.noChroot = true)
    ∨ (e = PrepareError.sandboxProfileNotAllowed ∧
      env.sandboxMode = SandboxMode.smEnabled ∧ env.noChroot = false ∧
      env.platform = Platform.darwin ∧ env.additionalSandboxProfile ≠ "") := by
  simp only [sandboxModeDecision] at h
  cases hm : env.sandboxMode <;> rw [hm] at h
  · by_cases hn : env.noChroot = true
    · left
      rw [if_pos hn] at h
      injection h with h₂
      exact ⟨h₂.symm, rfl, hn⟩
    · by_cases hdp : env.platform = Platform.darwin ∧ env.additionalSandboxProfile ≠ ""
      · right
        rw [if_neg hn, if_pos hdp] at h
        injection h with h₂
        simp only [Bool.not_eq_true] at hn
        exact ⟨h₂.symm, rfl, hn, hdp.1, hdp.2⟩
      · rw [if_neg hn, if_neg hdp] at h
        exact Except.noConfusion h
  · exact Except.noConfusion h
  · exact Except.noConfusion h

/-- Characterisation of the errors of the diverted-store block. -/
theorem divertedStoreDecision_error_char (env : PrepareEnv) (uc : Bool) (e : PrepareError)
    (h : divertedStoreDecision env uc = Except.error e) :
    e = PrepareError.divertedStoreUnsupported ∧
    env.storeDirDiverted = true ∧ env.platform = Platform.darwin := by
  simp only [divertedStoreDecision] at h
  by_cases hd : env.storeDirDiverted = true
  · rw [if_pos hd] at h
    cases hp : env.platform <;> rw [hp] at h
    · exact Except.noConfusion h
    · injection h with h₂
      exact ⟨h₂.symm, hd, rfl⟩
  · rw [if_neg hd] at h
    exact Except.noConfusion h

/-- Characterisation of the errors of the namespaces block. -/
theorem namespacesDecision_error_char (env : PrepareEnv) (uc : Bool) (e : PrepareError)
    (h : namespacesDecision env uc = Except.error e) :
    e = PrepareError.namespacesUnsupported ∧
    env.platform = Platform.linux ∧ env.mountAndPidNamespacesSupported = false ∧
    env.sandboxFallback = false := by
  simp only [namespacesDecision] at h
  by_cases hc : env.platform = Platform.linux ∧ uc = true ∧
      env.mountAndPidNamespacesSupported = false
  · rw [if_pos hc] at h
    by_cases hf : env.sandboxFallback = false
    · rw [if_pos hf] at h
      injection h with h₂
      exact ⟨h₂.symm, hc.1, hc.2.2, hf⟩
    · rw [if_neg hf] at h
      exact Except.noConfusion h
  · rw [if_neg hc] at h
    exact Except.noConfusion h

/-- C7: `prepareBuild` returns `false` (the Retry outcome) exactly when
build users are in use and no build user lock could be acquired (and no
configuration error fires); every configuration error it raises
corresponds to an actual configuration mismatch (derivation demands
`__noChroot` under enforced sandboxing, a Darwin sandbox profile under
enforced sandboxing, a diverted store off Linux, or missing kernel
namespaces without fallback). -/
theorem prepareBuild_retry_C7 (env : PrepareEnv) :
    (prepareBuild env = Except.ok false ↔
      (env.useBuildUsers = true ∧ env.buildUserAlreadySet = false ∧
       env.userLockAvailable = false ∧ ∀ e, prepareBuild env ≠ Except.error e))
    ∧ (prepareBuild env = Except.error PrepareError.noChrootNotAllowed →
        env.sandboxMode = SandboxMode.smEnabled ∧ env.noChroot = true)
    ∧ (prepareBuild env = Except.error PrepareError.sandboxProfileNotAllowed →
        env.sandboxMode = SandboxMode.smEnabled ∧ env.platform = Platform.darwin ∧
        env.additionalSandboxProfile ≠ "")
    ∧ (prepareBuild env = Except.error PrepareError.divertedStoreUnsupported →
        env.storeDirDiverted = true ∧ env.platform = Platform.darwin)
    ∧ (prepareBuild env = Except.error PrepareError.namespacesUnsupported →
        env.platform = Platform.linux ∧ env.mountAndPidNamespacesSupported = false ∧
        env.sandboxFallback = false) := by
  rcases h1 : sandboxModeDecision env with e1 | uc1
  · have hp : prepareBuild env = Except.error e1 := by
      simp [prepareBuild, h1]
    refine ⟨?_, ?_, ?_, ?_, ?_⟩
    · rw [hp]
      constructor
      · intro h; cases h
      · rintro ⟨-, -, -, hno⟩
        exact absurd rfl (hno e1)
    · intro h
      rw [hp] at h
      have he1 : e1 = PrepareError.noChrootNotAllowed := by
        injection h
      rcases sandboxModeDecision_error_char env e1 h1 with ⟨-, h2, h3⟩ | ⟨hc, -⟩
      · exact ⟨h2, h3⟩
      · rw [he1] at hc; cases hc
    · intro h
      rw [hp] at h
      have he1 : e1 = PrepareError.sandboxProfileNotAllowed := by
        injection h
      rcases sandboxModeDecision_error_char env e1 h1 with ⟨hc, -⟩ | ⟨-, h2, -, h4, h5⟩
      · rw [he1] at hc; cases hc
      · exact ⟨h2, h4, h5⟩
    · intro h
      rw [hp] at h
      have he1 : e1 = PrepareError.divertedStoreUnsupported := by
        injection h
      rcases sandboxModeDecision_error_char env e1 h1 with ⟨hc, -⟩ | ⟨hc, -⟩ <;>
        · rw [he1] at hc; cases hc
    · intro h
      rw [hp] at h
      have he1 : e1 = PrepareError.namespacesUnsupported := by
        injection h
      rcases sandboxModeDecision_error_char env e1 h1 with ⟨hc, -⟩ | ⟨hc, -⟩ <;>
        · rw [he1] at hc; cases hc
  · rcases h2 : divertedStoreDecision env uc1 with e2 | uc2
    · have hp : prepareBuild env = Except.error e2 := by
        simp [prepareBuild, h1, h2]
      have hchar := divertedStoreDecision_error_char env uc1 e2 h2
      refine ⟨?_, ?_, ?_, ?_, ?_⟩
      · rw [hp]
        constructor
        · intro h; cases h
        · rintro ⟨-, -, -, hno⟩
          exact absurd rfl (hno e2)
      · intro h
        rw [hp] at h
        have he2 : e2 = PrepareError.noChrootNotAllowed := by injection h
        rw [he2] at hchar; cases hchar.1
      · intro h
        rw [hp] at h
        have he2 : e2 = PrepareError.sandboxProfileNotAllowed := by injection h
        rw [he2] at hchar; cases hchar.1
      · intro h
        exact ⟨hchar.2.1, hchar.2.2⟩
      · intro h
        rw [hp] at h
        have he2 : e2 = PrepareError.namespacesUnsupported := by injection h
        rw [he2] at hchar; cases hchar.1
    · rcases h3 : namespacesDecision env uc2 with e3 | uc3
      · have hp : prepareBuild env = Except.error e3 := by
          simp [prepareBuild, h1, h2, h3]
        have hchar := namespacesDecision_error_char env uc2 e3 h3
        refine ⟨?_, ?_, ?_, ?_, ?_⟩
        · rw [hp]
          constructor
          · intro h; cases h
          · rintro ⟨-, -, -, hno⟩
            exact absurd rfl (hno e3)
        · intro h
          rw [hp] at h
          have he3 : e3 = PrepareError.noChrootNotAllowed := by injection h
          rw [he3] at hchar; cases hchar.1
        · intro h
          rw [hp] at h
          have he3 : e3 = PrepareError.sandboxProfileNotAllowed := by injection h
          rw [he3] at hchar; cases hchar.1
        · intro h
          rw [hp] at h
          have he3 : e3 = PrepareError.divertedStoreUnsupported := by injection h
          rw [he3] at hchar; cases hchar.1
        · intro h
          exact hchar.2
      · have hp : prepareBuild env =
            (if env.useBuildUsers = true then
              if env.buildUserAlreadySet = true ∨ env.userLockAvailable = true then
                Except.ok true
              else Except.ok false
            else Except.ok true) := by
          simp [prepareBuild, h1, h2, h3]
        have herr : ∀ e, prepareBuild env ≠ Except.error e := by
          intro e he
          rw [hp] at he
          by_cases hu : env.useBuildUsers = true
          · rw [if_pos hu] at he
            by_cases hl : env.buildUserAlreadySet = true ∨ env.userLockAvailable = true
            · rw [if_pos hl] at he; exact Except.noConfusion he
            · rw [if_neg hl] at he; exact Except.noConfusion he
          · rw [if_neg hu] at he; exact Except.noConfusion he
        refine ⟨?_, ?_, ?_, ?_, ?_⟩
        · constructor
          · intro h
            rw [hp] at h
            by_cases hu : env.useBuildUsers = true
            · rw [if_pos hu] at h
              by_cases hl : env.buildUserAlreadySet = true ∨ env.userLockAvailable = true
              · rw [if_pos hl] at h
                injection h with h₂
                exact Bool.noConfusion h₂
              · push_neg at hl
                have hl₁ : env.buildUserAlreadySet = false := by
                  simpa using hl.1
                have hl₂ : env.userLockAvailable = false := by
                  simpa using hl.2
                exact ⟨hu, hl₁, hl₂, herr⟩
            · rw [if_neg hu] at h
              injection h with h₂
              exact Bool.noConfusion h₂
          · rintro ⟨hu, hbs, hul, -⟩
            rw [hp, if_pos hu, if_neg (by simp [hbs, hul])]
        all_goals exact fun h => absurd h (herr _)

/-- Concrete instantiation of the C7 theorem: build users enabled, no
pre-set user and no lock available, benign configuration: the Retry
outcome. -/
theorem prepareBuild_retry_C7_witness :
    prepareBuild
      { platform := Platform.linux, sandboxMode := SandboxMode.smDisabled
        noChroot := false, additionalSandboxProfile := ""
        derivationIsSandboxed := true, storeDirDiverted := false
        mountAndPidNamespacesSupported := true, sandboxFallback := true
        useBuildUsers := true, buildUserAlreadySet := false
        userLockAvailable := false } = Except.ok false :=
  (prepareBuild_retry_C7 _).1.mpr
    ⟨rfl, rfl, rfl, fun _ he => by
      rw [show prepareBuild
        { platform := Platform.linux, sandboxMode := SandboxMode.smDisabled
          noChroot := false, additionalSandboxProfile := ""
          derivationIsSandboxed := true, storeDirDiverted := false
          mountAndPidNamespacesSupported := true, sandboxFallback := true
          useBuildUsers := true, buildUserAlreadySet := false
          userLockAvailable := false } = Except.ok false from rfl] at he
      exact Except.noConfusion he⟩

/-- C6 counterexample: a sandboxed flag of `false` (a fixed-output
derivation) with ample free disk space (1 GiB on both filesystems) is
classified `TransientFailure`, not `PermanentFailure`, although the
disk-full heuristic reports false. -/
theorem diskFull_classification_C6_counterexample :
    cleanupDecideWhetherDiskFull (some 1073741824) (some 1073741824) = false
    ∧ unprepareBuilderFailureStatus (BuilderStatus.exited 1) false
        (some 1073741824) (some 1073741824) = some BuildStatus.TransientFailure
    ∧ BuildStatus.TransientFailure ≠ BuildStatus.PermanentFailure := by
  decide

/-- C6 (amended): when the builder does not exit cleanly, the failure
is `TransientFailure` iff the derivation is not sandboxed or a statvfs
probe of the store or temp directory reports less than 8 MiB free, and
`PermanentFailure` otherwise. -/
theorem diskFull_classification_C6 (status : BuilderStatus) (sandboxed : Bool)
    (freeStore freeTmp : Option Nat) (h : statusOk status = false) :
    (unprepareBuilderFailureStatus status sandboxed freeStore freeTmp =
      some (if !sandboxed || cleanupDecideWhetherDiskFull freeStore freeTmp
            then BuildStatus.TransientFailure else BuildStatus.PermanentFailure))
    ∧ (cleanupDecideWhetherDiskFull freeStore freeTmp = true ↔
        ((∃ f, freeStore = some f ∧ f < 8 * 1024 * 1024) ∨
         (∃ f, freeTmp = some f ∧ f < 8 * 1024 * 1024))) := by
  constructor
  · simp only [unprepareBuilderFailureStatus, h, Bool.false_eq_true, if_false,
      classifyBuildError, Option.some.injEq]
  · cases freeStore <;> cases freeTmp <;>
      simp [cleanupDecideWhetherDiskFull]

/-- Concrete instantiation of the C6 theorem: builder killed by a
signal, sandboxed, 1 MiB free on the temp filesystem: transient. -/
theorem diskFull_classification_C6_witness :
    unprepareBuilderFailureStatus (BuilderStatus.signaled 9) true
      (some 1073741824) (some 1048576) = some BuildStatus.TransientFailure := by
  have h := (diskFull_classification_C6 (BuilderStatus.signaled 9) true
    (some 1073741824) (some 1048576) (by decide)).1
  simpa using h

/-- C9 counterexample: a duplicate-path request (the path is already in
`inputPaths`) returns successfully with the state unchanged; no error
of any kind is raised. -/
theorem addDependency_duplicate_C9_counterexample :
    addDependency Platform.linux true true
        { inputPaths := [{ hashPart := "aaa", name := "dep" }]
          addedPaths := [], sandboxContents := [] }
        { hashPart := "aaa", name := "dep" }
      = Except.ok
        { inputPaths := [{ hashPart := "aaa", name := "dep" }]
          addedPaths := [], sandboxContents := [] }
    ∧ ∀ e, addDependency Platform.linux true true
        { inputPaths := [{ hashPart := "aaa", name := "dep" }]
          addedPaths := [], sandboxContents := [] }
        { hashPart := "aaa", name := "dep" }
      ≠ Except.error e := by
  refine ⟨rfl, ?_⟩
  intro e h
  rw [show addDependency Platform.linux true true
        { inputPaths := [{ hashPart := "aaa", name := "dep" }]
          addedPaths := [], sandboxContents := [] }
        { hashPart := "aaa", name := "dep" }
      = Except.ok
        { inputPaths := [{ hashPart := "aaa", name := "dep" }]
          addedPaths := [], sandboxContents := [] } from rfl] at h
  cases h

/-- C9 (amended): a request to add a store path that is already
allowed (present in `inputPaths` or `addedPaths`) is accepted as a
no-op: `addDependency` returns immediately with the state unchanged,
for every platform, chroot setting and bind-mount outcome. -/
theorem addDependency_duplicate_C9 (platform : Platform)
    (useChroot bindMountSucceeds : Bool) (st : AddDepState) (p : StorePath)
    (h : isAllowed st p = true) :
    addDependency platform useChroot bindMountSucceeds st p = Except.ok st := by
  simp [addDependency, h]

/-- Concrete instantiation of the C9 theorem: duplicate of an added
path under a Darwin no-chroot build is likewise a no-op. -/
theorem addDependency_duplicate_C9_witness :
    addDependency Platform.darwin false false
        { inputPaths := [], addedPaths := [{ hashPart := "bbb", name := "x" }]
          sandboxContents := [] }
        { hashPart := "bbb", name := "x" }
      = Except.ok
        { inputPaths := [], addedPaths := [{ hashPart := "bbb", name := "x" }]
          sandboxContents := [] } :=
  addDependency_duplicate_C9 Platform.darwin false false _ _ (by decide)

/-- Characterisation of a successful `phase1Scan`: the scratch path was
present, not suspicious, was canonicalised, and its references are the
scan result (or empty under the discard bit). -/
theorem phase1Scan_ok_char (env : Phase1Env) (name : String) (sp : StorePath)
    (r : Phase1Result) (h : phase1Scan env name sp = Except.ok r) :
    ∃ st, env.lstat sp = some st ∧ suspiciousOwnership env.buildUser st = false ∧
      r = { info := OutputRefsInfo.perhapsNeedToRegister
              (if (List.lookup name env.unsafeDiscardReferences).getD false = true then []
               else scanForReferences (env.contents sp) (referenceablePaths env))
            canonicalised := true
            stat := some st } := by
  cases hl : env.lstat sp with
  | none =>
    simp only [phase1Scan, hl] at h
    exact Except.noConfusion h
  | some st =>
    simp only [phase1Scan, hl] at h
    by_cases hsusp : suspiciousOwnership env.buildUser st = true
    · rw [if_pos hsusp] at h
      exact Except.noConfusion h
    · rw [if_neg hsusp] at h
      injection h with h₂
      refine ⟨st, rfl, ?_, h₂.symm⟩
      simpa using hsusp

/-- C3: a registered output's reference set is computed by scanning the
scratch output's bytes for hash parts drawn from the allowlist
`inputPaths ∪ scratchOutputs ∪ addedPaths` (hence lies inside that
allowlist), and an output whose `unsafeDiscardReferences` bit is set
gets an empty reference set. -/
theorem reference_scan_C3 (env : Phase1Env) (outputName : String) (r : Phase1Result)
    (h : phase1One env outputName = Except.ok r) (refs : List StorePath)
    (hr : r.info = OutputRefsInfo.perhapsNeedToRegister refs) :
    (∀ p ∈ refs, p ∈ referenceablePaths env)
    ∧ ((List.lookup outputName env.unsafeDiscardReferences).getD false = true → refs = [])
    ∧ ((List.lookup outputName env.unsafeDiscardReferences).getD false = false →
        ∃ scratchPath, List.lookup outputName env.scratchOutputs = some scratchPath ∧
          refs = scanForReferences (env.contents scratchPath) (referenceablePaths env)) := by
  cases hs : List.lookup outputName env.scratchOutputs with
  | none =>
    simp only [phase1One, hs] at h
    exact Except.noConfusion h
  | some scratchPath =>
    cases hi : List.lookup outputName env.initialOutputs with
    | none =>
      simp only [phase1One, hs, hi] at h
      exact Except.noConfusion h
    | some initialInfo =>
      simp only [phase1One, hs, hi] at h
      have key : phase1Scan env outputName scratchPath = Except.ok r →
          (∀ p ∈ refs, p ∈ referenceablePaths env)
          ∧ ((List.lookup outputName env.unsafeDiscardReferences).getD false = true →
              refs = [])
          ∧ ((List.lookup outputName env.unsafeDiscardReferences).getD false = false →
              ∃ scratchPath₂, some scratchPath = some scratchPath₂ ∧
                refs = scanForReferences (env.contents scratchPath₂)
                  (referenceablePaths env)) := by
        intro hscan
        obtain ⟨st, -, -, hrec⟩ := phase1Scan_ok_char env outputName scratchPath r hscan
        rw [hrec] at hr
        simp only [OutputRefsInfo.perhapsNeedToRegister.injEq] at hr
        by_cases hd : (List.lookup outputName env.unsafeDiscardReferences).getD false = true
        · rw [if_pos hd] at hr
          refine ⟨?_, fun _ => hr.symm, fun hfalse => ?_⟩
          · intro p hp; rw [← hr] at hp; cases hp
          · rw [hd] at hfalse; cases hfalse
        · rw [if_neg hd] at hr
          refine ⟨?_, fun htrue => absurd htrue hd, fun _ => ⟨scratchPath, rfl, hr.symm⟩⟩
          intro p hp
          rw [← hr] at hp
          exact (List.mem_filter.mp hp).1
      cases hk : initialInfo.known with
      | some known =>
        simp only [hk] at h
        by_cases hcond : env.buildMode ≠ BuildMode.bmCheck ∧ known.status.isValid = true
        · rw [if_pos hcond] at h
          injection h with h₂
          rw [← h₂] at hr
          cases hr
        · rw [if_neg hcond] at h
          exact key h
      | none =>
        simp only [hk] at h
        exact key h

/-- Concrete instantiation of the C3 theorem: an output containing the
hash part of an input path reports exactly that reference, which lies
in the allowlist. -/
theorem reference_scan_C3_witness :
    ({ hashPart := "inp", name := "lib" } : StorePath) ∈ referenceablePaths
      { buildMode := BuildMode.bmNormal, buildUser := some 1000
        inputPaths := [{ hashPart := "inp", name := "lib" }], addedPaths := []
        scratchOutputs := [("out", { hashPart := "scr", name := "foo" })]
        initialOutputs := [("out", { known := none })]
        unsafeDiscardReferences := []
        lstat := fun _ => some { st_mode := 0o100644, st_uid := 1000 }
        contents := fun _ => ["inp"] } :=
  (reference_scan_C3
    { buildMode := BuildMode.bmNormal, buildUser := some 1000
      inputPaths := [{ hashPart := "inp", name := "lib" }], addedPaths := []
      scratchOutputs := [("out", { hashPart := "scr", name := "foo" })]
      initialOutputs := [("out", { known := none })]
      unsafeDiscardReferences := []
      lstat := fun _ => some { st_mode := 0o100644, st_uid := 1000 }
      contents := fun _ => ["inp"] }
    "out" _ rfl [{ hashPart := "inp", name := "lib" }] rfl).1
    { hashPart := "inp", name := "lib" } (by decide)

/-- C8 counterexample: a world-writable symlink owned by the build user
is accepted by the registration check (the source exempts symlinks from
the whole writability test, not only from the group-writable bit),
whereas a regular file with the same permission bits is rejected. -/
theorem output_ownership_check_C8_counterexample :
    (phase1One
        { buildMode := BuildMode.bmNormal, buildUser := some 1000
          inputPaths := [], addedPaths := []
          scratchOutputs := [("out", { hashPart := "abc", name := "foo" })]
          initialOutputs := [("out", { known := none })]
          unsafeDiscardReferences := []
          lstat := fun _ => some { st_mode := 0o120777, st_uid := 1000 }
          contents := fun _ => [] } "out"
      = Except.ok
        { info := OutputRefsInfo.perhapsNeedToRegister []
          canonicalised := true
          stat := some { st_mode := 0o120777, st_uid := 1000 } })
    ∧ S_ISLNK 0o120777 = true
    ∧ Nat.land 0o120777 S_IWOTH ≠ 0
    ∧ (phase1One
        { buildMode := BuildMode.bmNormal, buildUser := some 1000
          inputPaths := [], addedPaths := []
          scratchOutputs := [("out", { hashPart := "abc", name := "foo" })]
          initialOutputs := [("out", { known := none })]
          unsafeDiscardReferences := []
          lstat := fun _ => some { st_mode := 0o100777, st_uid := 1000 }
          contents := fun _ => [] } "out"
      = Except.error (Phase1Error.suspiciousOutput "out")) :=
  ⟨rfl, rfl, by decide, rfl⟩

/-- C8 (amended): the registration check lstat()s the scratch path and
rejects the build if the path is missing, or if the path is not a
symlink and has group- or world-writable bits (symlinks are exempt from
the writability test entirely, accepting both group- and world-writable
symlink modes), or if a build user is in use and the owner differs;
outputs passing the check are permission-canonicalised. -/
theorem output_ownership_check_C8 (env : Phase1Env) (name : String) (sp : StorePath) :
    (phase1Scan env name sp = Except.error (Phase1Error.missingOutput name) ↔
      env.lstat sp = none)
    ∧ (∀ st, env.lstat sp = some st →
        (phase1Scan env name sp = Except.error (Phase1Error.suspiciousOutput name) ↔
          suspiciousOwnership env.buildUser st = true))
    ∧ (∀ st, suspiciousOwnership env.buildUser st = true ↔
        ((S_ISLNK st.st_mode = false ∧ Nat.land st.st_mode (Nat.lor S_IWGRP S_IWOTH) ≠ 0)
         ∨ (∃ uid, env.buildUser = some uid ∧ st.st_uid ≠ uid)))
    ∧ (∀ st r, env.lstat sp = some st → phase1Scan env name sp = Except.ok r →
        r.canonicalised = true) := by
  refine ⟨?_, ?_, ?_, ?_⟩
  · constructor
    · intro h
      cases hl : env.lstat sp with
      | none => rfl
      | some st =>
        simp only [phase1Scan, hl] at h
        by_cases hsusp : suspiciousOwnership env.buildUser st = true
        · rw [if_pos hsusp] at h
          injection h with h₂
          cases h₂
        · rw [if_neg hsusp] at h
          exact Except.noConfusion h
    · intro h
      simp [phase1Scan, h]
  · intro st hst
    constructor
    · intro h
      simp only [phase1Scan, hst] at h
      by_cases hsusp : suspiciousOwnership env.buildUser st = true
      · exact hsusp
      · rw [if_neg hsusp] at h
        exact Except.noConfusion h
    · intro hsusp
      simp [phase1Scan, hst, hsusp]
  · intro st
    cases hbu : env.buildUser with
    | none =>
      simp [suspiciousOwnership, hbu, Bool.and_eq_true, Bool.or_eq_true]
    | some uid =>
      simp [suspiciousOwnership, hbu, Bool.and_eq_true, Bool.or_eq_true]
  · intro st r hst hok
    obtain ⟨st₂, -, -, hrec⟩ := phase1Scan_ok_char env name sp r hok
    rw [hrec]

/-- Concrete instantiation of the C8 theorem: a regular group-writable
file is classified suspicious and rejected. -/
theorem output_ownership_check_C8_witness :
    phase1Scan
      { buildMode := BuildMode.bmNormal, buildUser := none
        inputPaths := [], addedPaths := []
        scratchOutputs := [("out", { hashPart := "abc", name := "foo" })]
        initialOutputs := [("out", { known := none })]
        unsafeDiscardReferences := []
        lstat := fun _ => some { st_mode := 0o100664, st_uid := 1000 }
        contents := fun _ => [] } "out" { hashPart := "abc", name := "foo" }
      = Except.error (Phase1Error.suspiciousOutput "out") :=
  ((output_ownership_check_C8
    { buildMode := BuildMode.bmNormal, buildUser := none
      inputPaths := [], addedPaths := []
      scratchOutputs := [("out", { hashPart := "abc", name := "foo" })]
      initialOutputs := [("out", { known := none })]
      unsafeDiscardReferences := []
      lstat := fun _ => some { st_mode := 0o100664, st_uid := 1000 }
      contents := fun _ => [] } "out" { hashPart := "abc", name := "foo" }).2.1
    { st_mode := 0o100664, st_uid := 1000 } rfl).mpr (by decide)

/-- A successful leaves-first sort emits a permutation of its input. -/
theorem topoSortAux_ok_perm (children : String → List String) :
    ∀ (fuel : Nat) (remaining : List String), remaining.length ≤ fuel →
    ∀ L, topoSortAux children fuel remaining = Except.ok L → L.Perm remaining := by
  intro fuel
  induction fuel with
  | zero =>
    intro remaining hlen L h
    have hnil : remaining = [] := List.length_eq_zero.mp (Nat.le_zero.mp hlen)
    subst hnil
    simp only [topoSortAux] at h
    injection h with h₂
    rw [← h₂]
  | succ n ih =>
    intro remaining hlen L h
    cases remaining with
    | nil =>
      simp only [topoSortAux] at h
      injection h with h₂
      rw [← h₂]
    | cons parent rest =>
      cases hf : (parent :: rest).find? (noPendingEdge children (parent :: rest)) with
      | some x =>
        have hx : x ∈ parent :: rest := List.mem_of_find?_eq_some hf
        cases hrec : topoSortAux children n ((parent :: rest).erase x) with
        | ok sorted =>
          simp only [topoSortAux, hf, hrec] at h
          injection h with h₂
          have hlen₂ : ((parent :: rest).erase x).length ≤ n := by
            rw [List.length_erase_of_mem hx]
            simp only [List.length_cons] at hlen ⊢
            omega
          have hperm := ih ((parent :: rest).erase x) hlen₂ sorted hrec
          rw [← h₂]
          exact (hperm.cons x).trans (List.perm_cons_erase hx).symm
        | error e =>
          simp only [topoSortAux, hf, hrec] at h
          exact Except.noConfusion h
      | none =>
        cases hg : (children parent).find?
            (fun c => !(c == parent) && (parent :: rest).contains c) with
        | some path =>
          simp only [topoSortAux, hf, hg] at h
          exact Except.noConfusion h
        | none =>
          simp only [topoSortAux, hf, hg] at h
          exact Except.noConfusion h

/-- In a successful leaves-first sort, every output referenced by an
emitted output `x` (self-references aside, within the sorted set) was
emitted strictly before `x`. -/
theorem topoSortAux_ok_order (children : String → List String) :
    ∀ (fuel : Nat) (remaining : List String), remaining.length ≤ fuel →
    ∀ L, topoSortAux children fuel remaining = Except.ok L →
    ∀ pre x suf, L = pre ++ x :: suf →
    ∀ c, c ∈ children x → c ≠ x → c ∈ remaining → c ∈ pre := by
  intro fuel
  induction fuel with
  | zero =>
    intro remaining hlen L h pre x suf hL c hc hcx hcrem
    have hnil : remaining = [] := List.length_eq_zero.mp (Nat.le_zero.mp hlen)
    subst hnil
    cases hcrem
  | succ n ih =>
    intro remaining hlen L h pre x suf hL c hc hcx hcrem
    cases remaining with
    | nil => cases hcrem
    | cons parent rest =>
      cases hf : (parent :: rest).find? (noPendingEdge children (parent :: rest)) with
      | some x₀ =>
        have hx₀ : x₀ ∈ parent :: rest := List.mem_of_find?_eq_some hf
        have hpred := List.find?_some hf
        cases hrec : topoSortAux children n ((parent :: rest).erase x₀) with
        | ok sorted =>
          simp only [topoSortAux, hf, hrec] at h
          injection h with h₂
          cases pre with
          | nil =>
            rw [← h₂] at hL
            simp only [List.nil_append] at hL
            injection hL with hx₁ hsuf
            subst hx₁
            simp only [noPendingEdge, List.all_eq_true] at hpred
            rcases Bool.or_eq_true _ _ |>.mp (hpred c hc) with hceq | hnc
            · exact absurd (eq_of_beq hceq) hcx
            · rw [Bool.not_eq_true'] at hnc
              have : c ∉ parent :: rest := by
                simpa using hnc
              exact absurd hcrem this
          | cons p₀ pre₂ =>
            rw [← h₂] at hL
            simp only [List.cons_append] at hL
            injection hL with hph htl
            by_cases hcx₀ : c = x₀
            · rw [hcx₀, hph]
              exact List.mem_cons_self _ _
            · have hcerase : c ∈ (parent :: rest).erase x₀ :=
                (List.mem_erase_of_ne hcx₀).mpr hcrem
              have hlen₂ : ((parent :: rest).erase x₀).length ≤ n := by
                rw [List.length_erase_of_mem hx₀]
                simp only [List.length_cons] at hlen ⊢
                omega
              exact List.mem_cons_of_mem _
                (ih _ hlen₂ sorted hrec pre₂ x suf htl c hc hcx hcerase)
        | error e =>
          simp only [topoSortAux, hf, hrec] at h
          exact Except.noConfusion h
      | none =>
        cases hg : (children parent).find?
            (fun c => !(c == parent) && (parent :: rest).contains c) with
        | some path =>
          simp only [topoSortAux, hf, hg] at h
          exact Except.noConfusion h
        | none =>
          simp only [topoSortAux, hf, hg] at h
          exact Except.noConfusion h

/-- A cycle error always names an actual edge inside the sorted set:
the parent output references the path output. -/
theorem topoSortAux_cycle_sound (children : String → List String) :
    ∀ (fuel : Nat) (remaining : List String), remaining.length ≤ fuel →
    ∀ p q, topoSortAux children fuel remaining =
      Except.error (TopoError.referenceCycle p q) →
    p ∈ children q ∧ p ≠ q ∧ p ∈ remaining ∧ q ∈ remaining := by
  intro fuel
  induction fuel with
  | zero =>
    intro remaining hlen p q h
    have hnil : remaining = [] := List.length_eq_zero.mp (Nat.le_zero.mp hlen)
    subst hnil
    simp only [topoSortAux] at h
    exact Except.noConfusion h
  | succ n ih =>
    intro remaining hlen p q h
    cases remaining with
    | nil =>
      simp only [topoSortAux] at h
      exact Except.noConfusion h
    | cons parent rest =>
      cases hf : (parent :: rest).find? (noPendingEdge children (parent :: rest)) with
      | some x₀ =>
        have hx₀ : x₀ ∈ parent :: rest := List.mem_of_find?_eq_some hf
        cases hrec : topoSortAux children n ((parent :: rest).erase x₀) with
        | ok sorted =>
          simp only [topoSortAux, hf, hrec] at h
          exact Except.noConfusion h
        | error e =>
          simp only [topoSortAux, hf, hrec] at h
          injection h with h₂
          rw [h₂] at hrec
          have hlen₂ : ((parent :: rest).erase x₀).length ≤ n := by
            rw [List.length_erase_of_mem hx₀]
            simp only [List.length_cons] at hlen ⊢
            omega
          obtain ⟨h1, h2, h3, h4⟩ := ih _ hlen₂ p q hrec
          exact ⟨h1, h2, List.mem_of_mem_erase h3, List.mem_of_mem_erase h4⟩
      | none =>
        cases hg : (children parent).find?
            (fun c => !(c == parent) && (parent :: rest).contains c) with
        | some path =>
          simp only [topoSortAux, hf, hg] at h
          injection h with h₂
          injection h₂ with hpe hqe
          have hchild : path ∈ children parent := List.mem_of_find?_eq_some hg
          have hpred := List.find?_some hg
          simp only [Bool.and_eq_true, Bool.not_eq_true'] at hpred
          rw [← hpe, ← hqe]
          refine ⟨hchild, ?_, ?_, List.mem_cons_self _ _⟩
          · intro hpq
            rw [hpq] at hpred
            simp at hpred
          · simpa using hpred.2
        | none =>
          exfalso
          have hnone := List.find?_eq_none.mp hf parent (List.mem_cons_self parent rest)
          simp only [noPendingEdge, List.all_eq_true, not_forall] at hnone
          obtain ⟨c, hc, hcbad⟩ := hnone
          have hginner := List.find?_eq_none.mp hg c hc
          simp only [Bool.or_eq_true, Bool.not_eq_true', not_or] at hcbad
          simp only [Bool.and_eq_true, Bool.not_eq_true', not_and] at hginner
          obtain ⟨hcne, hccont⟩ := hcbad
          have himp : ¬c = parent → c ∈ rest := by
            simpa using hccont
          have hmemc : c ∈ parent :: rest := by
            by_cases hcp : c = parent
            · rw [hcp]
              exact List.mem_cons_self _ _
            · exact List.mem_cons_of_mem _ (himp hcp)
          have hcontains : (parent :: rest).contains c = true := by
            simpa using hmemc
          have hceq : (c == parent) = false := by
            simpa using hcne
          exact hginner hceq hcontains

/-- Within a duplicate-free decomposed list, a member of the prefix has
a strictly smaller index than the pivot. -/
theorem indexOf_lt_of_mem_pre (v x : String) :
    ∀ (pre suf : List String), (pre ++ x :: suf).Nodup → v ∈ pre →
    (pre ++ x :: suf).indexOf v < (pre ++ x :: suf).indexOf x := by
  intro pre
  induction pre with
  | nil =>
    intro suf _ hv
    cases hv
  | cons a pre₂ ih =>
    intro suf hnodup hv
    have hnda : a ∉ pre₂ ++ x :: suf := (List.nodup_cons.mp hnodup).1
    have hxmem : x ∈ pre₂ ++ x :: suf :=
      List.mem_append_right _ (List.mem_cons_self _ _)
    have hxa : x ≠ a := by
      intro hxa
      apply hnda
      rw [← hxa]
      exact hxmem
    rcases List.mem_cons.mp hv with hva | hvp
    · subst hva
      simp only [List.cons_append]
      rw [List.indexOf_cons_self]
      rw [List.indexOf_cons_ne _ (Ne.symm hxa)]
      exact Nat.succ_pos _
    · have hvna : v ≠ a := by
        intro hva
        apply hnda
        rw [← hva]
        exact List.mem_append_left _ hvp
      simp only [List.cons_append]
      rw [List.indexOf_cons_ne _ (Ne.symm hvna), List.indexOf_cons_ne _ (Ne.symm hxa)]
      exact Nat.succ_lt_succ (ih suf (List.nodup_cons.mp hnodup).2 hvp)

/-- A reference edge between sortable outputs forces a strictly smaller
emission index for the referenced output. -/
theorem topo_ok_indexOf_lt (children : String → List String) (items L : List String)
    (hok : topoSortLeavesFirst children items = Except.ok L)
    (hnodup : items.Nodup) (u v : String) (hu : u ∈ items)
    (hv : v ∈ children u) (hvu : v ≠ u) (hvi : v ∈ items) :
    L.indexOf v < L.indexOf u := by
  have hok₂ : topoSortAux children items.length items = Except.ok L := hok
  have hperm := topoSortAux_ok_perm children items.length items le_rfl L hok₂
  have hnodupL : L.Nodup := (hperm.nodup_iff).mpr hnodup
  have huL : u ∈ L := (hperm.mem_iff).mpr hu
  obtain ⟨pre, suf, hL⟩ := List.append_of_mem huL
  have hcpre := topoSortAux_ok_order children items.length items le_rfl L hok₂
    pre u suf hL v hv hvu hvi
  rw [hL] at hnodupL ⊢
  exact indexOf_lt_of_mem_pre v u pre suf hnodupL hcpre

/-- Along a chain of reference edges inside the sorted set, emission
indices do not increase from head to last. -/
theorem topo_chain_indexOf_le (children : String → List String)
    (items L : List String)
    (hok : topoSortLeavesFirst children items = Except.ok L)
    (hnodup : items.Nodup) :
    ∀ (cyc : List String) (a : String),
      List.Chain' (refEdge children) (a :: cyc) →
      (∀ x ∈ a :: cyc, x ∈ items) →
      L.indexOf ((a :: cyc).getLast (List.cons_ne_nil a cyc)) ≤ L.indexOf a := by
  intro cyc
  induction cyc with
  | nil =>
    intro a _ _
    simp
  | cons b t ih =>
    intro a hchain hmem
    have hedge : refEdge children a b := (List.chain'_cons.mp hchain).1
    have hchain₂ : List.Chain' (refEdge children) (b :: t) :=
      (List.chain'_cons.mp hchain).2
    have hmem₂ : ∀ x ∈ b :: t, x ∈ items := fun x hx =>
      hmem x (List.mem_cons_of_mem _ hx)
    have hib := ih b hchain₂ hmem₂
    have hba : L.indexOf b < L.indexOf a :=
      topo_ok_indexOf_lt children items L hok hnodup a b
        (hmem a (List.mem_cons_self _ _)) hedge.1 hedge.2
        (hmem b (List.mem_cons_of_mem _ (List.mem_cons_self _ _)))
    have hlast : (a :: b :: t).getLast (List.cons_ne_nil a (b :: t)) =
        (b :: t).getLast (List.cons_ne_nil b t) := by
      rw [List.getLast_cons]
    rw [hlast]
    exact le_trans hib (le_of_lt hba)

/-- C5: output finalization order.  A successful sort emits a
permutation of the outputs in which every output referenced by an
output `x` (self-references aside) comes strictly before `x`
(leaves-first: the rewrites of every referenced output are installed
before `x` is hashed); a `ReferenceCycle` error names two outputs
joined by an actual reference edge within the set; a cyclic chain of
reference edges makes the sort fail; and an `AlreadyRegistered` output
is a leaf with no outbound edges. -/
theorem topoOrder_C5 (children : String → List String) (items : List String) :
    (∀ L, topoSortLeavesFirst children items = Except.ok L →
      L.Perm items ∧
      ∀ pre x suf, L = pre ++ x :: suf →
        ∀ c, c ∈ children x → c ≠ x → c ∈ items → c ∈ pre)
    ∧ (∀ p q, topoSortLeavesFirst children items =
        Except.error (TopoError.referenceCycle p q) →
        p ∈ children q ∧ p ≠ q ∧ p ∈ items ∧ q ∈ items)
    ∧ (items.Nodup → ∀ a cyc,
        List.Chain' (refEdge children) (a :: cyc) →
        refEdge children ((a :: cyc).getLast (List.cons_ne_nil a cyc)) a →
        (∀ x ∈ a :: cyc, x ∈ items) →
        ∀ L, topoSortLeavesFirst children items ≠ Except.ok L)
    ∧ (∀ scratchOutputs orifu name p,
        List.lookup name orifu = some (OutputRefsInfo.alreadyRegistered p) →
        getChildren scratchOutputs orifu name = []) := by
  refine ⟨?_, ?_, ?_, ?_⟩
  · intro L hok
    exact ⟨topoSortAux_ok_perm children items.length items le_rfl L hok,
      topoSortAux_ok_order children items.length items le_rfl L hok⟩
  · intro p q h
    exact topoSortAux_cycle_sound children items.length items le_rfl p q h
  · intro hnodup a cyc hchain hloop hmem L hok
    have hlast_mem : (a :: cyc).getLast (List.cons_ne_nil a cyc) ∈ a :: cyc :=
      List.getLast_mem _
    have hle := topo_chain_indexOf_le children items L hok hnodup cyc a hchain hmem
    have hlt : L.indexOf a < L.indexOf ((a :: cyc).getLast (List.cons_ne_nil a cyc)) :=
      topo_ok_indexOf_lt children items L hok hnodup
        ((a :: cyc).getLast (List.cons_ne_nil a cyc)) a
        (hmem _ hlast_mem) hloop.1 hloop.2 (hmem a (List.mem_cons_self _ _))
    omega
  · intro scratchOutputs orifu name p h
    simp [getChildren, h]

/-- Concrete instantiation of the C5 theorem: with output `a`
referencing output `b`, the sort emits `b` (the leaf) first and the
result is a permutation of the outputs. -/
theorem topoOrder_C5_witness :
    (["b", "a"] : List String).Perm ["a", "b"] :=
  ((topoOrder_C5 (fun n => if n = "a" then ["b"] else []) ["a", "b"]).1
    ["b", "a"] rfl).1

/-- A single output with no outbound edges sorts to itself. -/
theorem topoSortLeavesFirst_single (children : String → List String) (name : String)
    (h : children name = []) :
    topoSortLeavesFirst children [name] = Except.ok [name] := by
  have hpred : noPendingEdge children [name] name = true := by
    simp [noPendingEdge, h]
  simp only [topoSortLeavesFirst, List.length_cons, List.length_nil, Nat.zero_add]
  simp only [topoSortAux]
  rw [List.find?_cons_of_pos _ hpred]
  simp [List.erase_cons_head, topoSortAux]

/-- C2 counterexample: two declared floating CA outputs; output `a` is
finalized and registered individually, then output `b` fails the
flat-ingestion regular-file check.  The build terminates in failure
with `a`'s path registered and `b`'s not: neither all nor none of the
declared outputs were registered, and no single atomic commit covered
them. -/
theorem atomic_commit_C2_counterexample :
    (registerOutputsRun
      { buildMode := BuildMode.bmNormal
        drvOutputs := [("a", DerivationOutputT.caFloating false),
                       ("b", DerivationOutputT.caFloating true)]
        scratchOutputs := [("a", { hashPart := "sa", name := "a" }),
                           ("b", { hashPart := "sb", name := "b" })]
        caHash := fun _ => "h"
        caPath := fun n => if n = "a" then { hashPart := "fa", name := "a" }
                           else { hashPart := "fb", name := "b" }
        narHash := fun _ => "nh", narSize := fun _ => 0
        storeIsValidPath := fun _ => false, storePathNarHash := fun _ => "nh"
        storePathUltimate := fun _ => true, maxSize := none }
      { buildMode := BuildMode.bmNormal, buildUser := none
        inputPaths := [], addedPaths := []
        scratchOutputs := [("a", { hashPart := "sa", name := "a" }),
                           ("b", { hashPart := "sb", name := "b" })]
        initialOutputs := [("a", { known := none }), ("b", { known := none })]
        unsafeDiscardReferences := []
        lstat := fun q => if q = { hashPart := "sb", name := "b" } then
                            some { st_mode := 0o100755, st_uid := 0 }
                          else some { st_mode := 0o100644, st_uid := 0 }
        contents := fun _ => [] }).outcome
      = Except.error (FinalizeError.flatOutputNotRegularFile "b")
    ∧ (registerOutputsRun
      { buildMode := BuildMode.bmNormal
        drvOutputs := [("a", DerivationOutputT.caFloating false),
                       ("b", DerivationOutputT.caFloating true)]
        scratchOutputs := [("a", { hashPart := "sa", name := "a" }),
                           ("b", { hashPart := "sb", name := "b" })]
        caHash := fun _ => "h"
        caPath := fun n => if n = "a" then { hashPart := "fa", name := "a" }
                           else { hashPart := "fb", name := "b" }
        narHash := fun _ => "nh", narSize := fun _ => 0
        storeIsValidPath := fun _ => false, storePathNarHash := fun _ => "nh"
        storePathUltimate := fun _ => true, maxSize := none }
      { buildMode := BuildMode.bmNormal, buildUser := none
        inputPaths := [], addedPaths := []
        scratchOutputs := [("a", { hashPart := "sa", name := "a" }),
                           ("b", { hashPart := "sb", name := "b" })]
        initialOutputs := [("a", { known := none }), ("b", { known := none })]
        unsafeDiscardReferences := []
        lstat := fun q => if q = { hashPart := "sb", name := "b" } then
                            some { st_mode := 0o100755, st_uid := 0 }
                          else some { st_mode := 0o100644, st_uid := 0 }
        contents := fun _ => [] }).registrations
      = [[{ hashPart := "fa", name := "a" }]]
    ∧ ({ hashPart := "fa", name := "a" } : StorePath) ≠ { hashPart := "fb", name := "b" } :=
  ⟨rfl, rfl, by decide⟩

/-- Outside Check mode, `registerStep` keeps every registration-trace
entry a singleton registration of a content-addressed output collected
in `infos`. -/
theorem registerStep_trace (env : FinalizeEnv) (st : RegisterState)
    (outputName : String) (scratchPath newPath : StorePath) (isCA : Bool)
    (delayed : Option DelayedError) (st₂ : RegisterState)
    (hmode : ¬ env.buildMode = BuildMode.bmCheck)
    (h : registerStep env st outputName scratchPath newPath isCA delayed = Except.ok st₂)
    (hinv : ∀ ev ∈ st.registrations, ∃ nm p, ev = [p] ∧ (nm, p, true) ∈ st.infos) :
    ∀ ev ∈ st₂.registrations, ∃ nm p, ev = [p] ∧ (nm, p, true) ∈ st₂.infos := by
  simp only [registerStep, if_neg hmode] at h
  cases isCA with
  | true =>
    rw [if_pos rfl] at h
    injection h with h₂
    subst h₂
    intro ev hev
    simp only [finishOutput, List.mem_append] at hev
    rcases hev with hev | hev
    · obtain ⟨nm, p, hevp, hmem⟩ := hinv ev hev
      refine ⟨nm, p, hevp, ?_⟩
      simp only [finishOutput]
      exact List.mem_append_left _ hmem
    · simp only [List.mem_singleton] at hev
      refine ⟨outputName, newPath, hev, ?_⟩
      simp only [finishOutput]
      exact List.mem_append_right _ (List.mem_singleton.mpr rfl)
  | false =>
    rw [if_neg (by decide)] at h
    injection h with h₂
    subst h₂
    intro ev hev
    simp only [finishOutput] at hev
    obtain ⟨nm, p, hevp, hmem⟩ := hinv ev hev
    refine ⟨nm, p, hevp, ?_⟩
    simp only [finishOutput]
    exact List.mem_append_left _ hmem

/-- Outside Check mode, one finalization iteration preserves the
registration-trace shape. -/
theorem finalizeOne_trace (env : FinalizeEnv)
    (phase1Results : List (String × Phase1Result)) (st : RegisterState)
    (n : String) (st₂ : RegisterState)
    (hmode : ¬ env.buildMode = BuildMode.bmCheck)
    (h : finalizeOne env phase1Results st n = Except.ok st₂)
    (hinv : ∀ ev ∈ st.registrations, ∃ nm p, ev = [p] ∧ (nm, p, true) ∈ st.infos) :
    ∀ ev ∈ st₂.registrations, ∃ nm p, ev = [p] ∧ (nm, p, true) ∈ st₂.infos := by
  cases ho : List.lookup n env.drvOutputs with
  | none =>
    simp only [finalizeOne, ho] at h
    exact Except.noConfusion h
  | some output =>
  cases hs : List.lookup n env.scratchOutputs with
  | none =>
    simp only [finalizeOne, ho, hs] at h
    exact Except.noConfusion h
  | some scratchPath =>
  cases hp : List.lookup n phase1Results with
  | none =>
    simp only [finalizeOne, ho, hs, hp] at h
    exact Except.noConfusion h
  | some p1 =>
  cases hpi : p1.info with
  | alreadyRegistered skippedFinalPath =>
    simp only [finalizeOne, ho, hs, hp, hpi] at h
    injection h with h₂
    subst h₂
    simpa only [finishOutput] using hinv
  | perhapsNeedToRegister references =>
  cases output with
  | inputAddressed requiredFinalPath =>
    simp only [finalizeOne, ho, hs, hp, hpi] at h
    exact registerStep_trace env _ n scratchPath requiredFinalPath false _ st₂ hmode h hinv
  | caFixed flat wanted =>
    simp only [finalizeOne, ho, hs, hp, hpi] at h
    cases hni : newInfoFromCA env st n scratchPath p1.stat flat references with
    | error e =>
      rw [hni] at h
      exact Except.noConfusion h
    | ok triple =>
      obtain ⟨newPath, newRefs, got⟩ := triple
      rw [hni] at h
      exact registerStep_trace env st n scratchPath newPath true _ st₂ hmode h hinv
  | caFloating flat =>
    simp only [finalizeOne, ho, hs, hp, hpi] at h
    cases hni : newInfoFromCA env st n scratchPath p1.stat flat references with
    | error e =>
      rw [hni] at h
      exact Except.noConfusion h
    | ok triple =>
      obtain ⟨newPath, newRefs, got⟩ := triple
      rw [hni] at h
      exact registerStep_trace env st n scratchPath newPath true _ st₂ hmode h hinv
  | deferred =>
    simp only [finalizeOne, ho, hs, hp, hpi] at h
    exact Except.noConfusion h
  | impure flat =>
    simp only [finalizeOne, ho, hs, hp, hpi] at h
    cases hni : newInfoFromCA env st n scratchPath p1.stat flat references with
    | error e =>
      rw [hni] at h
      exact Except.noConfusion h
    | ok triple =>
      obtain ⟨newPath, newRefs, got⟩ := triple
      rw [hni] at h
      exact registerStep_trace env st n scratchPath newPath true _ st₂ hmode h hinv

/-- Outside Check mode, the finalization loop preserves the
registration-trace shape. -/
theorem finalizeLoop_trace (env : FinalizeEnv)
    (phase1Results : List (String × Phase1Result))
    (hmode : ¬ env.buildMode = BuildMode.bmCheck) :
    ∀ (names : List String) (st st₂ : RegisterState),
    finalizeLoop env phase1Results st names = (st₂, none) →
    (∀ ev ∈ st.registrations, ∃ nm p, ev = [p] ∧ (nm, p, true) ∈ st.infos) →
    ∀ ev ∈ st₂.registrations, ∃ nm p, ev = [p] ∧ (nm, p, true) ∈ st₂.infos := by
  intro names
  induction names with
  | nil =>
    intro st st₂ h hinv
    simp only [finalizeLoop] at h
    injection h with h₂ h₃
    subst h₂
    exact hinv
  | cons n rest ih =>
    intro st st₂ h hinv
    cases hone : finalizeOne env phase1Results st n with
    | ok st₃ =>
      simp only [finalizeLoop, hone] at h
      exact ih st₃ st₂ h (finalizeOne_trace env phase1Results st n st₃ hmode hone hinv)
    | error e =>
      simp only [finalizeLoop, hone] at h
      injection h with h₂ h₃
      exact Option.noConfusion h₃

/-- C2 (amended): in every successful non-Check run, the commit step is
a single `registerValidPaths` call, placed last, covering all of the
run's registered outputs; every earlier registration is an individual
registration of a single content-addressed output that the final commit
also covers.  (All-or-none does not hold in general: a failure between
an individual CA registration and the commit leaves a partial set
registered, as the counterexample shows.) -/
theorem atomic_commit_C2 (env : FinalizeEnv) (p1env : Phase1Env)
    (built : List (String × StorePath))
    (hmode : ¬ env.buildMode = BuildMode.bmCheck)
    (h : (registerOutputsRun env p1env).outcome = Except.ok built) :
    ∃ pre commit, (registerOutputsRun env p1env).registrations = pre ++ [commit]
      ∧ ∀ ev ∈ pre, ∃ p, ev = [p] ∧ p ∈ commit := by
  unfold registerOutputsRun at h ⊢
  cases hp1 : phase1 p1env (env.drvOutputs.map Prod.fst) with
  | error e =>
    simp only [hp1] at h
    simp at h
  | ok phase1Results =>
    simp only [hp1] at h ⊢
    cases htopo : topoSortLeavesFirst
        (getChildren env.scratchOutputs
          (phase1Results.map (fun nr => (nr.1, nr.2.info))))
        (env.drvOutputs.map Prod.fst) with
    | error e =>
      cases e with
      | referenceCycle p q =>
        simp only [htopo] at h
        simp at h
    | ok sortedOutputNames =>
      simp only [htopo] at h ⊢
      rcases hloop : finalizeLoop env phase1Results
          { outputRewrites := [], finalOutputs := [], infos := []
            registrations := [], delayed := none } sortedOutputNames with ⟨st, e?⟩
      cases e? with
      | some e =>
        simp only [hloop] at h
        simp at h
      | none =>
        simp only [hloop] at h ⊢
        rw [if_neg hmode] at h ⊢
        cases hchk : checkOutputsModel env st.infos with
        | some e =>
          simp only [hchk] at h
          simp at h
        | none =>
          simp only [hchk] at h ⊢
          cases hd : st.delayed with
          | some d =>
            simp only [hd] at h
            simp at h
          | none =>
            simp only [hd] at h ⊢
            refine ⟨st.registrations, st.infos.map (fun i => i.2.1), rfl, ?_⟩
            have hinv := finalizeLoop_trace env phase1Results hmode sortedOutputNames
              _ st hloop (by intro ev hev; cases hev)
            intro ev hev
            obtain ⟨nm, p, hevp, hmem⟩ := hinv ev hev
            refine ⟨p, hevp, ?_⟩
            exact List.mem_map.mpr ⟨(nm, p, true), hmem, rfl⟩

/-- Concrete instantiation of the C2 theorem: a successful single
floating-CA build ends with the commit of all outputs, preceded only by
that output's individual CA registration. -/
theorem atomic_commit_C2_witness :
    ∃ pre commit,
      (registerOutputsRun
        { buildMode := BuildMode.bmNormal
          drvOutputs := [("a", DerivationOutputT.caFloating false)]
          scratchOutputs := [("a", { hashPart := "sa", name := "a" })]
          caHash := fun _ => "h"
          caPath := fun _ => { hashPart := "fa", name := "a" }
          narHash := fun _ => "nh", narSize := fun _ => 0
          storeIsValidPath := fun _ => false, storePathNarHash := fun _ => "nh"
          storePathUltimate := fun _ => true, maxSize := none }
        { buildMode := BuildMode.bmNormal, buildUser := none
          inputPaths := [], addedPaths := []
          scratchOutputs := [("a", { hashPart := "sa", name := "a" })]
          initialOutputs := [("a", { known := none })]
          unsafeDiscardReferences := []
          lstat := fun _ => some { st_mode := 0o100644, st_uid := 0 }
          contents := fun _ => [] }).registrations = pre ++ [commit]
      ∧ ∀ ev ∈ pre, ∃ p, ev = [p] ∧ p ∈ commit :=
  atomic_commit_C2
    { buildMode := BuildMode.bmNormal
      drvOutputs := [("a", DerivationOutputT.caFloating false)]
      scratchOutputs := [("a", { hashPart := "sa", name := "a" })]
      caHash := fun _ => "h"
      caPath := fun _ => { hashPart := "fa", name := "a" }
      narHash := fun _ => "nh", narSize := fun _ => 0
      storeIsValidPath := fun _ => false, storePathNarHash := fun _ => "nh"
      storePathUltimate := fun _ => true, maxSize := none }
    { buildMode := BuildMode.bmNormal, buildUser := none
      inputPaths := [], addedPaths := []
      scratchOutputs := [("a", { hashPart := "sa", name := "a" })]
      initialOutputs := [("a", { known := none })]
      unsafeDiscardReferences := []
      lstat := fun _ => some { st_mode := 0o100644, st_uid := 0 }
      contents := fun _ => [] }
    [("a", { hashPart := "fa", name := "a" })] (by decide) rfl

/-- Full computation of `registerOutputsRun` for a derivation with a
single fixed-output (CA fixed) output that passes the phase-1 checks:
the output is finalized, registered individually, committed in the
final `registerValidPaths` call, and the delayed exception (if any) is
raised only after both registrations. -/
theorem registerOutputs_single_caFixed (env : FinalizeEnv) (p1env : Phase1Env)
    (name : String) (flat : Bool) (wanted : String) (scratchPath : StorePath)
    (r : Phase1Result) (fstat : FileStat) (refs : List StorePath)
    (newRefs : List StorePath) (d₂ : Option DelayedError)
    (hmode : env.buildMode = BuildMode.bmNormal)
    (houts : env.drvOutputs = [(name, DerivationOutputT.caFixed flat wanted)])
    (hscr : List.lookup name env.scratchOutputs = some scratchPath)
    (hp1 : phase1 p1env [name] = Except.ok [(name, r)])
    (hinfo : r.info = OutputRefsInfo.perhapsNeedToRegister refs)
    (hstat : r.stat = some fstat)
    (hflat : ¬(flat = true ∧
      (S_ISREG fstat.st_mode = false ∨ Nat.land fstat.st_mode S_IXUSR ≠ 0)))
    (hms : env.maxSize = none)
    (hchild : getChildren env.scratchOutputs [(name, r.info)] name = [])
    (hnr : newRefs = (rewriteRefs scratchPath [] refs).others ++
      (if (rewriteRefs scratchPath [] refs).self then [env.caPath name] else []))
    (hd : d₂ = (if newRefs ≠ [] then
        some (DelayedError.fixedOutputReferences newRefs.length
          (newRefs.head?.getD scratchPath))
      else if wanted ≠ env.caHash name then
        some (DelayedError.hashMismatch (sriOf wanted) (sriOf (env.caHash name)))
      else none)) :
    registerOutputsRun env p1env =
      { registrations := [[env.caPath name], [env.caPath name]]
        outcome := d₂.elim (Except.ok [(name, env.caPath name)])
          (fun d => Except.error (FinalizeError.delayed d)) } := by
  subst hnr
  have houtnames : env.drvOutputs.map Prod.fst = [name] := by
    rw [houts]
    rfl
  have hlookout : List.lookup name env.drvOutputs =
      some (DerivationOutputT.caFixed flat wanted) := by
    rw [houts]
    simp [List.lookup]
  have hlookr : List.lookup name [(name, r)] = some r := by
    simp [List.lookup]
  have htopo := topoSortLeavesFirst_single
    (getChildren env.scratchOutputs [(name, r.info)]) name hchild
  have hmodene : ¬ env.buildMode = BuildMode.bmCheck := by
    rw [hmode]
    decide
  unfold registerOutputsRun
  simp only [houtnames, hp1, List.map_cons, List.map_nil, htopo]
  simp only [finalizeLoop, finalizeOne, hlookout, hscr, hlookr, hinfo]
  simp only [newInfoFromCA, hstat, if_neg hflat]
  simp only [registerStep, if_neg hmodene, finishOutput]
  simp only [eq_self_iff_true, if_true]
  simp only [checkOutputsModel, hms]
  simp only [insertOrAssign, List.map_cons, List.map_nil]
  cases d₂ with
  | some d =>
    simp only [← hd, Option.elim]
    rfl
  | none =>
    simp only [← hd, Option.elim]
    rfl

/-- C4: for a fixed-output (CA fixed) output whose computed content
hash differs from the declared hash (and whose reference set is empty),
the error is delayed: the output path is still registered — once
individually at finalization and once in the final commit of all
outputs — and the hash-mismatch error is raised only after those
registrations, citing both the specified and the got hash in SRI
form. -/
theorem fixedOutput_hashMismatch_C4 (env : FinalizeEnv) (p1env : Phase1Env)
    (name : String) (flat : Bool) (wanted : String) (scratchPath : StorePath)
    (r : Phase1Result) (fstat : FileStat)
    (hmode : env.buildMode = BuildMode.bmNormal)
    (houts : env.drvOutputs = [(name, DerivationOutputT.caFixed flat wanted)])
    (hscr : List.lookup name env.scratchOutputs = some scratchPath)
    (hp1 : phase1 p1env [name] = Except.ok [(name, r)])
    (hinfo : r.info = OutputRefsInfo.perhapsNeedToRegister [])
    (hstat : r.stat = some fstat)
    (hflat : ¬(flat = true ∧
      (S_ISREG fstat.st_mode = false ∨ Nat.land fstat.st_mode S_IXUSR ≠ 0)))
    (hms : env.maxSize = none)
    (hchild : getChildren env.scratchOutputs [(name, r.info)] name = [])
    (hne : wanted ≠ env.caHash name) :
    (registerOutputsRun env p1env).outcome =
      Except.error (FinalizeError.delayed
        (DelayedError.hashMismatch (sriOf wanted) (sriOf (env.caHash name))))
    ∧ (registerOutputsRun env p1env).registrations =
      [[env.caPath name], [env.caPath name]] := by
  have hrun := registerOutputs_single_caFixed env p1env name flat wanted scratchPath
    r fstat [] _ _ hmode houts hscr hp1 hinfo hstat hflat hms hchild rfl rfl
  rw [hrun]
  refine ⟨?_, rfl⟩
  simp [rewriteRefs, hne, Option.elim]

/-- Concrete instantiation of the C4 theorem: declared hash `w`, got
hash `g`; the delayed error carries both in SRI form while the path is
registered. -/
theorem fixedOutput_hashMismatch_C4_witness :
    (registerOutputsRun
      { buildMode := BuildMode.bmNormal
        drvOutputs := [("out", DerivationOutputT.caFixed false "w")]
        scratchOutputs := [("out", { hashPart := "s", name := "out" })]
        caHash := fun _ => "g"
        caPath := fun _ => { hashPart := "f", name := "out" }
        narHash := fun _ => "nh", narSize := fun _ => 0
        storeIsValidPath := fun _ => false, storePathNarHash := fun _ => "nh"
        storePathUltimate := fun _ => true, maxSize := none }
      { buildMode := BuildMode.bmNormal, buildUser := none
        inputPaths := [], addedPaths := []
        scratchOutputs := [("out", { hashPart := "s", name := "out" })]
        initialOutputs := [("out", { known := none })]
        unsafeDiscardReferences := []
        lstat := fun _ => some { st_mode := 0o100644, st_uid := 0 }
        contents := fun _ => [] }).outcome
      = Except.error (FinalizeError.delayed
          (DelayedError.hashMismatch (sriOf "w") (sriOf "g"))) :=
  (fixedOutput_hashMismatch_C4
    { buildMode := BuildMode.bmNormal
      drvOutputs := [("out", DerivationOutputT.caFixed false "w")]
      scratchOutputs := [("out", { hashPart := "s", name := "out" })]
      caHash := fun _ => "g"
      caPath := fun _ => { hashPart := "f", name := "out" }
      narHash := fun _ => "nh", narSize := fun _ => 0
      storeIsValidPath := fun _ => false, storePathNarHash := fun _ => "nh"
      storePathUltimate := fun _ => true, maxSize := none }
    { buildMode := BuildMode.bmNormal, buildUser := none
      inputPaths := [], addedPaths := []
      scratchOutputs := [("out", { hashPart := "s", name := "out" })]
      initialOutputs := [("out", { known := none })]
      unsafeDiscardReferences := []
      lstat := fun _ => some { st_mode := 0o100644, st_uid := 0 }
      contents := fun _ => [] }
    "out" false "w" { hashPart := "s", name := "out" }
    { info := OutputRefsInfo.perhapsNeedToRegister []
      canonicalised := true
      stat := some { st_mode := 0o100644, st_uid := 0 } }
    { st_mode := 0o100644, st_uid := 0 }
    rfl rfl rfl rfl rfl rfl (by decide) rfl rfl (by decide)).1

/-- If the scanned reference set is non-empty, the rewritten reference
set attached to the new CA path is non-empty as well (a pure self
reference reappears attached to the new path). -/
theorem rewritten_refs_ne_nil (scratchPath : StorePath) (refs : List StorePath)
    (np : StorePath) (h : refs ≠ []) :
    (rewriteRefs scratchPath [] refs).others ++
      (if (rewriteRefs scratchPath [] refs).self then [np] else []) ≠ [] := by
  intro hcontra
  rcases List.append_eq_nil.mp hcontra with ⟨h₁, h₂⟩
  by_cases hs : (rewriteRefs scratchPath [] refs).self = true
  · rw [if_pos hs] at h₂
    cases h₂
  · simp only [rewriteRefs] at h₁ hs
    rw [List.map_eq_nil_iff] at h₁
    rw [List.filter_eq_nil_iff] at h₁
    cases refs with
    | nil => exact h rfl
    | cons r₀ rs =>
      have hr := h₁ r₀ (List.mem_cons_self _ _)
      have hreq : r₀ = scratchPath := by simpa using hr
      subst hreq
      apply hs
      simp

/-- C10: when a fixed-output output has both a content-hash mismatch
and a non-empty reference set, only the later-assigned reference
violation survives as the delayed exception; the hash mismatch is not
reported. -/
theorem fixedOutput_refs_override_C10 (env : FinalizeEnv) (p1env : Phase1Env)
    (name : String) (flat : Bool) (wanted : String) (scratchPath : StorePath)
    (r : Phase1Result) (fstat : FileStat) (refs : List StorePath)
    (hmode : env.buildMode = BuildMode.bmNormal)
    (houts : env.drvOutputs = [(name, DerivationOutputT.caFixed flat wanted)])
    (hscr : List.lookup name env.scratchOutputs = some scratchPath)
    (hp1 : phase1 p1env [name] = Except.ok [(name, r)])
    (hinfo : r.info = OutputRefsInfo.perhapsNeedToRegister refs)
    (hstat : r.stat = some fstat)
    (hflat : ¬(flat = true ∧
      (S_ISREG fstat.st_mode = false ∨ Nat.land fstat.st_mode S_IXUSR ≠ 0)))
    (hms : env.maxSize = none)
    (hchild : getChildren env.scratchOutputs [(name, r.info)] name = [])
    (hrefs : refs ≠ []) (hne : wanted ≠ env.caHash name) :
    (∃ n sample, (registerOutputsRun env p1env).outcome =
        Except.error (FinalizeError.delayed
          (DelayedError.fixedOutputReferences n sample)))
    ∧ (∀ s g, (registerOutputsRun env p1env).outcome ≠
        Except.error (FinalizeError.delayed (DelayedError.hashMismatch s g))) := by
  have hnr := rewritten_refs_ne_nil scratchPath refs (env.caPath name) hrefs
  have hrun := registerOutputs_single_caFixed env p1env name flat wanted scratchPath
    r fstat refs _ _ hmode houts hscr hp1 hinfo hstat hflat hms hchild rfl rfl
  constructor
  · refine ⟨((rewriteRefs scratchPath [] refs).others ++
      (if (rewriteRefs scratchPath [] refs).self then [env.caPath name] else [])).length,
      (((rewriteRefs scratchPath [] refs).others ++
        (if (rewriteRefs scratchPath [] refs).self then [env.caPath name]
         else [])).head?.getD scratchPath), ?_⟩
    rw [hrun]
    simp only [if_pos hnr, Option.elim]
  · intro s g hcontra
    rw [hrun] at hcontra
    simp only [if_pos hnr, Option.elim] at hcontra
    injection hcontra with h₂
    injection h₂ with h₃
    cases h₃

/-- Concrete instantiation of the C10 theorem: hash mismatch and a
non-empty reference set; the delayed error is the reference violation,
not the hash mismatch. -/
theorem fixedOutput_refs_override_C10_witness :
    ∃ n sample, (registerOutputsRun
      { buildMode := BuildMode.bmNormal
        drvOutputs := [("out", DerivationOutputT.caFixed false "w")]
        scratchOutputs := [("out", { hashPart := "s", name := "out" })]
        caHash := fun _ => "g"
        caPath := fun _ => { hashPart := "f", name := "out" }
        narHash := fun _ => "nh", narSize := fun _ => 0
        storeIsValidPath := fun _ => false, storePathNarHash := fun _ => "nh"
        storePathUltimate := fun _ => true, maxSize := none }
      { buildMode := BuildMode.bmNormal, buildUser := none
        inputPaths := [{ hashPart := "inp", name := "lib" }], addedPaths := []
        scratchOutputs := [("out", { hashPart := "s", name := "out" })]
        initialOutputs := [("out", { known := none })]
        unsafeDiscardReferences := []
        lstat := fun _ => some { st_mode := 0o100644, st_uid := 0 }
        contents := fun _ => ["inp"] }).outcome
      = Except.error (FinalizeError.delayed
          (DelayedError.fixedOutputReferences n sample)) :=
  (fixedOutput_refs_override_C10
    { buildMode := BuildMode.bmNormal
      drvOutputs := [("out", DerivationOutputT.caFixed false "w")]
      scratchOutputs := [("out", { hashPart := "s", name := "out" })]
      caHash := fun _ => "g"
      caPath := fun _ => { hashPart := "f", name := "out" }
      narHash := fun _ => "nh", narSize := fun _ => 0
      storeIsValidPath := fun _ => false, storePathNarHash := fun _ => "nh"
      storePathUltimate := fun _ => true, maxSize := none }
    { buildMode := BuildMode.bmNormal, buildUser := none
      inputPaths := [{ hashPart := "inp", name := "lib" }], addedPaths := []
      scratchOutputs := [("out", { hashPart := "s", name := "out" })]
      initialOutputs := [("out", { known := none })]
      unsafeDiscardReferences := []
      lstat := fun _ => some { st_mode := 0o100644, st_uid := 0 }
      contents := fun _ => ["inp"] }
    "out" false "w" { hashPart := "s", name := "out" }
    { info := OutputRefsInfo.perhapsNeedToRegister [{ hashPart := "inp", name := "lib" }]
      canonicalised := true
      stat := some { st_mode := 0o100644, st_uid := 0 } }
    { st_mode := 0o100644, st_uid := 0 }
    [{ hashPart := "inp", name := "lib" }]
    rfl rfl rfl rfl rfl rfl (by decide) rfl rfl (by decide) (by decide)).1

end NixBuild
